import Mathlib

/-!
Verification of the HNSW core of `semantic-search-rs`.

The definitions below are a shallow embedding of `src/hnsw_index/dist.rs` and
`src/hnsw_index/hnsw.rs`.  The distance-kernel formulas are modelled over exact
rationals or reals (they involve `sqrt`/`ln`).  The graph algorithms are
generic over the element type `T` in the source (`Hnsw<T, D>` is instantiated
at integer element types such as `i32` as well as floats); the model fixes the
element and distance scalar to `ℤ`, on which every claim about the graph
structure is expressible and executable.  The random level drawn by
`LayerGenerator::generate` is modelled as an explicit argument of `insert`, and
the `while` loop of `search_layer` is indexed by explicit fuel (the Rust loop
terminates because the visited set grows; all theorems below hold for every
fuel value).  `BinaryHeap` is modelled as a list together with
maximum-extraction: `Ord` on `PointWithOrder` compares only the distance, so
popping the leftmost maximum is one admissible linearization of the heap.
-/

namespace SemanticSearchRs

/-! ## Distance kernels (dist.rs), modelled over `ℝ` -/

/-- One pass of `chunks_exact(k)` over both slices as in the `simd_l1_distance`
and `simd_l2_distance` macros: sum a function of the zipped `k`-chunks, stopping
as soon as either slice has fewer than `k` elements left.  The outer `Nat` is
fuel; callers pass the slice length, which always suffices. -/
def chunkSum {α : Type} [AddCommMonoid α] (f : α → α → α) (k : Nat) :
    Nat → List α → List α → α
  | 0, _, _ => 0
  | fuel + 1, va, vb =>
      if k ≤ va.length ∧ k ≤ vb.length then
        (((va.take k).zip (vb.take k)).map (fun t => f t.1 t.2)).sum
          + chunkSum f k fuel (va.drop k) (vb.drop k)
      else 0

/-- Pairwise sum of `f aᵢ bᵢ` over the zipped slices (the scalar loops of
dist.rs). -/
def pairSum {α : Type} [AddCommMonoid α] (f : α → α → α) (va vb : List α) : α :=
  ((va.zip vb).map (fun t => f t.1 t.2)).sum

/-- `DistL2::eval` for `f32` (macro `simd_l2_distance!(f32, f32x16, 16)`,
dist.rs lines 140-185): the 16-lane chunked sum of squared differences plus the
scalar tail over `va[size..]` where `size = len - len % 16`.  Note: the macro
returns `(c + d) as f32` with no square root.  Exact arithmetic (floats
modelled by rationals). -/
def distL2F32 (va vb : List ℚ) : ℚ :=
  let size := va.length - va.length % 16
  chunkSum (fun p q => (p - q) * (p - q)) 16 va.length va vb
    + pairSum (fun p q => (p - q) ^ 2) (va.drop size) (vb.drop size)

/-- `DistL2::eval` for `f64` (macro `simd_l2_distance!(f64, f64x8, 8)`):
8-lane chunks plus scalar tail, again with no square root. -/
def distL2F64 (va vb : List ℚ) : ℚ :=
  let size := va.length - va.length % 8
  chunkSum (fun p q => (p - q) * (p - q)) 8 va.length va vb
    + pairSum (fun p q => (p - q) ^ 2) (va.drop size) (vb.drop size)

/-- Scalar sum of squared differences `Σ (aᵢ - bᵢ)²`. -/
def l2ScalarSum (va vb : List ℚ) : ℚ :=
  pairSum (fun p q => (p - q) ^ 2) va vb

/-- Modelled from the spec: the table in section 4.1 defines the L2 metric as
`√Σ(aᵢ-bᵢ)²`.  This definition follows the spec's words and is compared with
`distL2F32`, the definition taken from the source. -/
noncomputable def specDistL2 (va vb : List ℚ) : ℝ :=
  Real.sqrt ((l2ScalarSum va vb : ℚ) : ℝ)

/-- The constant `M_MIN: f32 = 1.0e-30` of dist.rs. -/
noncomputable def mMIN : ℝ := 1e-30

/-- `DistJeffreys::eval` for `f32` (dist.rs lines 476-487): sums the terms
`(aᵢ-bᵢ)·ln(max(aᵢ,M_MIN)/max(bᵢ,M_MIN))` with `fold(0., |acc, t| acc + t)`.
Over `ℝ` because of the logarithm. -/
noncomputable def distJeffreysF32 (va vb : List ℝ) : ℝ :=
  ((va.zip vb).map
      (fun t => (t.1 - t.2) * Real.log (max t.1 mMIN / max t.2 mMIN))).foldl
    (fun acc t => acc + t) 0

/-- `DistJeffreys::eval` for `f64` (macro `implementJeffreysDistance!(f64)`,
dist.rs lines 461-474): maps the same terms but folds with
`|acc, t| acc + t * t`, i.e. it sums the squares of the terms. -/
noncomputable def distJeffreysF64 (va vb : List ℝ) : ℝ :=
  ((va.zip vb).map
      (fun t => (t.1 - t.2) * Real.log (max t.1 mMIN / max t.2 mMIN))).foldl
    (fun acc t => acc + t * t) 0

/-! ## Graph data model (hnsw.rs), over `ℤ` -/

/-- A distance capability `eval(&[T], &[T]) -> f32`. -/
abbrev Dist := List ℤ → List ℤ → ℤ

/-- `DistL1::eval` in its scalar form (`implementL1Distance!(i32)` and
friends); used to instantiate theorems at concrete inputs. -/
def distL1Int (va vb : List ℤ) : ℤ :=
  ((va.zip vb).map (fun t => |t.1 - t.2|)).sum

/-- `PointId(pub u8, pub i32)`: layer and slot; `slot = -1` denotes
uninitialized. -/
structure PointId where
  layer : Nat
  slot : Int
deriving DecidableEq, Repr

/-- A stored point: vector data, client id, internal id and the per-layer
neighbour lists.  A neighbour entry `(pid, d)` models an
`Arc<PointWithOrder<T>>` holding a reference to the point `pid` and the
distance `d` from the owning point (`dist_to_ref`). -/
structure PointRec where
  v : List ℤ
  origin_id : Nat
  p_id : PointId
  neighbours : List (List (PointId × ℤ))
deriving DecidableEq, Repr

/-- The externally returned triple (struct `Neighbour`). -/
structure Neighbour where
  d_id : Nat
  distance : ℤ
  p_id : PointId
deriving DecidableEq, Repr

/-- The `Hnsw` structure together with its `PointIndexation`: construction
parameters, the layered point store, the point counter and the entry point
(kept as a `PointId`; the Rust `Arc<Point>` is dereferenced with `rawGet`). -/
structure Graph where
  max_nb_connection : Nat
  ef_construction : Nat
  extend_candidates : Bool
  keep_pruned : Bool
  max_layer : Nat
  points_by_layer : List (List PointRec)
  nb_point : Nat
  entry_point : Option PointId
deriving DecidableEq, Repr

/-- The point list of a layer (empty for an out-of-range layer index). -/
def layerAt (g : Graph) (l : Nat) : List PointRec :=
  g.points_by_layer.getD l []

/-- The stored point at coordinates `(i, j)`. -/
def storedAt (g : Graph) (i j : Nat) : Option PointRec :=
  (layerAt g i)[j]?

/-- Dereference a `PointId` (an `Arc<Point>` in Rust): the point stored at the
id's coordinates. -/
def rawGet (g : Graph) (pid : PointId) : Option PointRec :=
  if pid.slot < 0 then none else storedAt g pid.layer pid.slot.toNat

/-- `p.neighbours.read()[l]`. -/
def nbhdOf (p : PointRec) (l : Nat) : List (PointId × ℤ) :=
  p.neighbours.getD l []

/-- The neighbour list of the point `pid` at layer `l`, read through the
graph. -/
def nbhdAtG (g : Graph) (pid : PointId) (l : Nat) : List (PointId × ℤ) :=
  match rawGet g pid with
  | some p => nbhdOf p l
  | none => []

/-- In-place update of the `n`-th element of a list (no-op out of range). -/
def modifyAt {α : Type} (l : List α) (n : Nat) (f : α → α) : List α :=
  match l[n]? with
  | some a => l.set n (f a)
  | none => l

/-- Overwrite the `k`-th neighbour list of a point. -/
def setNb (k : Nat) (nb : List (PointId × ℤ)) (p : PointRec) : PointRec :=
  { p with neighbours := p.neighbours.set k nb }

/-- Write `nb` into `neighbours[k]` of the point `pid`
(`point.neighbours.write()[k] = nb`). -/
def setNbhd (g : Graph) (pid : PointId) (k : Nat) (nb : List (PointId × ℤ)) :
    Graph :=
  if pid.slot < 0 then g
  else
    { g with
      points_by_layer :=
        modifyAt g.points_by_layer pid.layer
          (fun lay => modifyAt lay pid.slot.toNat (setNb k nb)) }

/-- All stored points (`iterate_all`). -/
def allPoints (g : Graph) : List PointRec :=
  g.points_by_layer.flatten

/-! ## Binary heap model -/

/-- A transient `(point, signed distance)` pair (`PointWithOrder`). -/
abbrev PWO := PointRec × ℤ

/-- `BinaryHeap::peek`: the leftmost element with maximal distance. -/
def heapPeekMax {α : Type} : List (α × ℤ) → Option (α × ℤ)
  | [] => none
  | x :: xs =>
      match heapPeekMax xs with
      | none => some x
      | some y => if x.2 < y.2 then some y else some x

/-- `BinaryHeap::pop`: remove the leftmost element with maximal distance,
returning it together with the remaining elements. -/
def heapPopMax {α : Type} : List (α × ℤ) → Option ((α × ℤ) × List (α × ℤ))
  | [] => none
  | x :: xs =>
      match heapPopMax xs with
      | none => some (x, [])
      | some (y, ys) => if x.2 < y.2 then some (y, x :: ys) else some (x, xs)

/-- Drop the maximal element (used for `return_points.pop()`). -/
def heapDropMax {α : Type} (l : List (α × ℤ)) : List (α × ℤ) :=
  match heapPopMax l with
  | some (_, rest) => rest
  | none => []

/-- Ascending sort by the distance component: models both
`BinaryHeap::into_sorted_vec` and `par_sort_unstable` on `PointWithOrder`
vectors (`Ord` compares only `dist_to_ref`). -/
def sortByDist {α : Type} (l : List (α × ℤ)) : List (α × ℤ) :=
  List.insertionSort (fun a b => a.2 ≤ b.2) l

instance sndLeTotal {α : Type} : IsTotal (α × ℤ) (fun a b => a.2 ≤ b.2) :=
  ⟨fun a b => le_total a.2 b.2⟩

instance sndLeTrans {α : Type} : IsTrans (α × ℤ) (fun a b => a.2 ≤ b.2) :=
  ⟨fun _ _ _ h1 h2 => le_trans h1 h2⟩

/-! ## search_layer (hnsw.rs lines 810-915) -/

/-- The body of the `for e in neighbours_c_l` loop of `search_layer`: scan the
neighbour entries of the popped candidate, updating the visited set, the
candidate heap and the result heap.  The `Bool` of the outcome is true when the
Rust code returned early (the `f_opt.is_none()` branch). -/
def innerLoop (dist : Dist) (g : Graph) (data : List ℤ) (ef : Nat)
    (filter : Option (Nat → Bool)) :
    List (PointId × ℤ) → List PointId → List PWO → List PWO →
      Bool × List PointId × List PWO × List PWO
  | [], visited, cands, ret => (false, visited, cands, ret)
  | e :: es, visited, cands, ret =>
      if e.1 ∈ visited then innerLoop dist g data ef filter es visited cands ret
      else
        let visited' := e.1 :: visited
        match rawGet g e.1 with
        | none => innerLoop dist g data ef filter es visited' cands ret
        | some ep =>
            match heapPeekMax ret with
            | none => (true, visited', cands, ret)
            | some f =>
                let e_dist := dist data ep.v
                if e_dist < f.2 ∨ ret.length < ef then
                  let cands' := (ep, -e_dist) :: cands
                  let ret' :=
                    match filter with
                    | none => (ep, e_dist) :: ret
                    | some phi =>
                        if phi ep.origin_id then
                          let clearCond : Bool :=
                            ret.length == 1 &&
                              (match heapPeekMax ret with
                               | some o => !phi o.1.origin_id
                               | none => false)
                          (ep, e_dist) :: (if clearCond then [] else ret)
                        else ret
                  let ret'' := if ef < ret'.length then heapDropMax ret' else ret'
                  innerLoop dist g data ef filter es visited' cands' ret''
                else innerLoop dist g data ef filter es visited' cands ret

/-- The `while !candidate_points.is_empty()` loop of `search_layer`, with
explicit fuel. -/
def searchLoop (dist : Dist) (g : Graph) (data : List ℤ) (ef : Nat)
    (layer : Nat) (filter : Option (Nat → Bool)) :
    Nat → List PointId → List PWO → List PWO → List PWO
  | 0, _, _, ret => ret
  | fuel + 1, visited, cands, ret =>
      match heapPopMax cands with
      | none => ret
      | some (c, cands') =>
          match heapPeekMax ret with
          | none => ret
          | some f =>
              if f.2 < -c.2 ∧ (filter.isNone ∨ ef ≤ ret.length) then ret
              else
                match innerLoop dist g data ef filter (nbhdOf c.1 layer)
                    visited cands' ret with
                | (true, _, _, ret') => ret'
                | (false, visited', cands'', ret') =>
                    searchLoop dist g data ef layer filter fuel visited'
                      cands'' ret'

/-- `search_layer(point, entry_point, ef, layer, filter)`: beam search
returning the result heap (positive distances to `data`). -/
def searchLayer (dist : Dist) (g : Graph) (data : List ℤ) (entry : PointRec)
    (ef : Nat) (layer : Nat) (filter : Option (Nat → Bool)) (fuel : Nat) :
    List PWO :=
  if (layerAt g layer).isEmpty then []
  else if entry.p_id.slot < 0 then []
  else
    let d0 := dist data entry.v
    searchLoop dist g data ef layer filter fuel [entry.p_id]
      [(entry, -d0)] [(entry, d0)]

/-! ## search / search_filter (hnsw.rs lines 1321-1409) -/

/-- One layer of the greedy descent of `search_filter`: scan the pivot's stored
neighbours once and move to the last one examined that improved the running
best distance. -/
def greedyStep (dist : Dist) (g : Graph) (data : List ℤ) (layer : Nat)
    (st : PointRec × ℤ) : PointRec × ℤ :=
  let scan :=
    (nbhdOf st.1 layer).foldl
      (fun (acc : Option PointRec × ℤ) n =>
        match rawGet g n.1 with
        | none => acc
        | some p =>
            let tmp := dist data p.v
            if tmp < acc.2 then (some p, tmp) else acc)
      (none, st.2)
  match scan.1 with
  | some p => (p, scan.2)
  | none => (st.1, scan.2)

/-- The full greedy descent from the entry point's layer down to layer 1. -/
def greedyDescend (dist : Dist) (g : Graph) (data : List ℤ)
    (entry : PointRec) : PointRec × ℤ :=
  ((List.range' 1 entry.p_id.layer).reverse).foldl
    (fun st l => greedyStep dist g data l st) (entry, dist data entry.v)

/-- Convert a result-heap element into the exported `Neighbour`. -/
def toNeighbour (p : PWO) : Neighbour :=
  { d_id := p.1.origin_id, distance := p.2, p_id := p.1.p_id }

/-- `search_filter(data, knbn, ef_arg, filter)`. -/
def searchFilter (dist : Dist) (g : Graph) (data : List ℤ)
    (knbn ef_arg : Nat) (filter : Option (Nat → Bool)) (fuel : Nat) :
    List Neighbour :=
  match g.entry_point with
  | none => []
  | some epid =>
      match rawGet g epid with
      | none => []
      | some entry =>
          let pivot := (greedyDescend dist g data entry).1
          let ef := max ef_arg knbn
          let sorted := sortByDist (searchLayer dist g data pivot ef 0 filter fuel)
          let last := min knbn (min ef sorted.length)
          (sorted.take last).map toNeighbour

/-- `search(data, knbn, ef_arg)` = `search_possible_filter` with no filter. -/
def search (dist : Dist) (g : Graph) (data : List ℤ) (knbn ef_arg : Nat)
    (fuel : Nat) : List Neighbour :=
  searchFilter dist g data knbn ef_arg none fuel

/-! ## parallel_search (hnsw.rs lines 1423-1460) -/

/-- The indexed requests `(0..n).zip(datas)` mapped through `search_with_id`.
`parallel_search` sends these over a channel, so the receiver sees them in an
arbitrary order: the reassembly below is quantified over any permutation. -/
def requestResults (dist : Dist) (g : Graph) (datas : List (List ℤ))
    (knbn ef fuel : Nat) : List (Nat × List Neighbour) :=
  ((List.range datas.length).zip datas).map
    (fun it => (it.1, search dist g it.2 knbn ef fuel))

/-- The reassembly phase of `parallel_search`: for each input rank `i`, look
up the response with key `i` (the `DashMap` from request id to arrival rank).
`req_res` is the arbitrarily ordered list collected from the channel. -/
def parallelSearch (datas : List (List ℤ))
    (req_res : List (Nat × List Neighbour)) : List (List Neighbour) :=
  (List.range datas.length).map (fun i => (req_res.lookup i).getD [])

/-! ## Point store: generate_new_point, check_entry_point, accessors -/

/-- `NB_LAYER_MAX`. -/
def NB_LAYER_MAX : Nat := 16

/-- `PointIndexation::generate_new_point`: sample a level (here an explicit
argument), append the point to its layer with `slot = len(layer)`, increment
`nb_point`; returns the new graph, the new point's id, and the new count. -/
def generateNewPoint (g : Graph) (data : List ℤ) (origin_id level : Nat) :
    Graph × PointId × Nat :=
  let slot := (layerAt g level).length
  let pid : PointId := ⟨level, (slot : Int)⟩
  let p : PointRec :=
    { v := data, origin_id := origin_id, p_id := pid,
      neighbours := List.replicate NB_LAYER_MAX [] }
  ({ g with
      points_by_layer := modifyAt g.points_by_layer level (fun lay => lay ++ [p]),
      nb_point := g.nb_point + 1 },
    pid, g.nb_point + 1)

/-- `PointIndexation::check_entry_point`: promote the entry point when absent
or when the new point's layer is strictly higher. -/
def checkEntryPoint (g : Graph) (newPid : PointId) : Graph :=
  match g.entry_point with
  | none => { g with entry_point := some newPid }
  | some e =>
      if e.layer < newPid.layer then { g with entry_point := some newPid } else g

/-- `PointIndexation::get_max_level_observed`: the entry point's stored
`p_id.0`, or 0 when there is no entry point. -/
def getMaxLevelObserved (g : Graph) : Nat :=
  match g.entry_point with
  | none => 0
  | some e =>
      match rawGet g e with
      | some p => p.p_id.layer
      | none => 0

/-- `PointIndexation::get_layer_nb_point` (0 on a bad layer number). -/
def getLayerNbPoint (g : Graph) (layer : Nat) : Nat :=
  if layer < g.points_by_layer.length then (layerAt g layer).length else 0

/-- `PointIndexation::get_point_data` (hnsw.rs lines 485-498). -/
def getPointData (g : Graph) (pid : PointId) : Option (List ℤ) :=
  if pid.slot < 0 then none
  else
    if pid.layer ≤ getMaxLevelObserved g ∧
        pid.slot.toNat < getLayerNbPoint g pid.layer then
      ((layerAt g pid.layer)[pid.slot.toNat]?).map (fun p => p.v)
    else none

/-- `PointIndexation::get_point` (hnsw.rs lines 507-520). -/
def getPoint (g : Graph) (pid : PointId) : Option PointRec :=
  if pid.slot < 0 then none
  else
    if pid.layer ≤ getMaxLevelObserved g ∧
        pid.slot.toNat < getLayerNbPoint g pid.layer then
      (layerAt g pid.layer)[pid.slot.toNat]?
    else none

/-! ## select_neighbours (hnsw.rs lines 1143-1248) -/

/-- The "just transfer taking care of signs" branch: pop every candidate
(nearest first, candidates hold negated distances) and flip the sign. -/
def popAll : Nat → List PWO → List PWO
  | 0, _ => []
  | fuel + 1, cands =>
      match heapPopMax cands with
      | none => []
      | some (p, rest) => (p.1, -p.2) :: popAll fuel rest

/-- The `extend_candidates` phase: collect every neighbour (at `layer`) of a
candidate that is not itself a candidate, dedup, and push each with its
negated distance to `data`.  The Rust code iterates two `HashMap`s, whose
order is unspecified; this model fixes first-encounter order (the resulting
id set is the same). -/
def extendCands (dist : Dist) (g : Graph) (data : List ℤ) (layer : Nat)
    (cands : List PWO) : List PWO :=
  let candIds := cands.map (fun c => c.1.p_id)
  let newIds :=
    cands.foldl
      (fun acc c =>
        (nbhdOf c.1 layer).foldl
          (fun acc2 q =>
            if q.1 ∈ candIds ∨ q.1 ∈ acc2 then acc2 else acc2 ++ [q.1])
          acc)
      []
  cands ++ newIds.filterMap (fun pid => (rawGet g pid).map (fun p => (p, -(dist data p.v))))

/-- The Navarro pruning loop: pop candidates nearest first and accept a point
iff no already accepted neighbour is at least as close to it as it is to
`data`; rejected points go to the discard heap when `keep_pruned` is set. -/
def mainSelect (dist : Dist) (nbAsked : Nat) (keepPruned : Bool) :
    Nat → List PWO → List PWO → List PWO → List PWO × List PWO
  | 0, _, result, disc => (result, disc)
  | fuel + 1, cands, result, disc =>
      if nbAsked ≤ result.length then (result, disc)
      else
        match heapPopMax cands with
        | none => (result, disc)
        | some (e, rest) =>
            let ok : Bool :=
              result.isEmpty ||
                !(result.any (fun d => decide (dist e.1.v d.1.v ≤ -e.2)))
            if ok then
              mainSelect dist nbAsked keepPruned fuel rest
                (result ++ [(e.1, -e.2)]) disc
            else
              mainSelect dist nbAsked keepPruned fuel rest result
                (if keepPruned then (e.1, e.2) :: disc else disc)

/-- The `keep_pruned` refill: pop discarded points nearest first until the
requested count is reached. -/
def refill (nbAsked : Nat) : Nat → List PWO → List PWO → List PWO
  | 0, _, result => result
  | fuel + 1, disc, result =>
      if nbAsked ≤ result.length then result
      else
        match heapPopMax disc with
        | none => result
        | some (b, rest) => refill nbAsked fuel rest (result ++ [(b.1, -b.2)])

/-- `select_neighbours(data, candidates, nb_neighbours_asked,
extend_candidates_asked, layer, keep_pruned)`.  Candidates arrive with
negated distances; the result holds positive distances. -/
def selectNeighbours (dist : Dist) (g : Graph) (data : List ℤ)
    (cands : List PWO) (nbAsked : Nat) (ext : Bool) (layer : Nat)
    (keepPruned : Bool) : List PWO :=
  if cands.length ≤ nbAsked ∧ ext = false then popAll cands.length cands
  else
    let cands' :=
      if cands.length ≤ nbAsked then extendCands dist g data layer cands
      else cands
    let md := mainSelect dist nbAsked keepPruned cands'.length cands' [] []
    if keepPruned then refill nbAsked md.2.length md.2 md.1 else md.1

/-! ## insert (hnsw.rs lines 930-1059) and its phases -/

/-- The greedy-descent loop of `insert_slice` (`for l in
((level+1)..(max_level_observed+1)).rev()`): at each upper layer run
`search_layer` with `ef = 1`, push the popped nearest point into the new
point's neighbour list at that layer when it holds fewer than
`max_nb_connection as u8` entries (the Rust cast makes this `M % 256`), and
move the entry point to it when strictly closer. -/
def descentLoop (dist : Dist) (data : List ℤ) (newPid : PointId) (fuel : Nat) :
    List Nat → Graph × PointRec × ℤ → Graph × PointRec × ℤ
  | [], st => st
  | l :: ls, (g, enter, dte) =>
      let sorted := searchLayer dist g data enter 1 l none fuel
      match heapPopMax sorted with
      | none => descentLoop dist data newPid fuel ls (g, enter, dte)
      | some (ep, _) =>
          let g' :=
            if (nbhdAtG g newPid l).length < g.max_nb_connection % 256 then
              setNbhd g newPid l (nbhdAtG g newPid l ++ [(ep.1.p_id, ep.2)])
            else g
          let tmp := dist data ep.1.v
          if tmp < dte then descentLoop dist data newPid fuel ls (g', ep.1, tmp)
          else descentLoop dist data newPid fuel ls (g', enter, dte)

/-- The beam-search-and-link loop of `insert_slice` (`for l in
(0..level+1).rev()`): beam search with `ef_construction`, select neighbours
(`2M` on layer 0, `M` above; `extend_candidates` only on layer 0), sort them by
ascending distance, assign them as the new point's neighbour list at `l`, and
continue from the nearest selected point. -/
def beamLoop (dist : Dist) (data : List ℤ) (newPid : PointId) (fuel : Nat) :
    List Nat → Graph × PointRec → Graph × PointRec
  | [], st => st
  | l :: ls, (g, enter) =>
      let sorted := searchLayer dist g data enter g.ef_construction l none fuel
      let neg : List PWO := sorted.map (fun x => (x.1, -x.2))
      if neg.isEmpty then beamLoop dist data newPid fuel ls (g, enter)
      else
        let nb_conn := if l = 0 then 2 * g.max_nb_connection else g.max_nb_connection
        let ext := if l = 0 then g.extend_candidates else false
        let nbrs := sortByDist (selectNeighbours dist g data neg nb_conn ext l g.keep_pruned)
        let g' := setNbhd g newPid l (nbrs.map (fun x => (x.1.p_id, x.2)))
        match nbrs with
        | [] => beamLoop dist data newPid fuel ls (g', enter)
        | h :: _ => beamLoop dist data newPid fuel ls (g', h.1)

/-- One reverse-link pass (`reverse_update_neighborhood_simple`, inner loop):
for each neighbour entry `(qpid, qd)` of the new point, append the new point
to `q.neighbours[l_n]` where `l_n` is the NEW point's layer
(`n_to_add.point_ref.p_id.0`), deduplicate, sort ascending and drop the
farthest entry when the capacity threshold is exceeded. -/
def reverseEdges (newPid : PointId) (level M : Nat) :
    List (PointId × ℤ) → Graph → Graph
  | [], g => g
  | (qpid, qd) :: rest, g =>
      if qpid = newPid then reverseEdges newPid level M rest g
      else
        let cur := nbhdAtG g qpid level
        if cur.any (fun x => decide (x.1 = newPid)) then
          reverseEdges newPid level M rest g
        else
          let pushed := cur ++ [(newPid, qd)]
          let thresh := if 0 < level then M else 2 * M
          let sorted := sortByDist pushed
          let final := if thresh < pushed.length then sorted.dropLast else sorted
          reverseEdges newPid level M rest (setNbhd g qpid level final)

/-- `reverse_update_neighborhood_simple(new_point)`: iterate the new point's
layers from `level` down to 0. -/
def reverseUpdate (newPid : PointId) (level M : Nat) :
    List Nat → Graph → Graph
  | [], g => g
  | l :: ls, g =>
      reverseUpdate newPid level M ls
        (reverseEdges newPid level M (nbhdAtG g newPid l) g)

/-- The linking phases of `insert_slice` once an entry point `ep` exists:
greedy descent from `ep`'s layer down to `level + 1`, beam search and link
from `level` down to 0, then the reverse neighbourhood update. -/
def insertLinked (dist : Dist) (fuel : Nat) (data : List ℤ)
    (newPid : PointId) (level : Nat) (g1 : Graph) (ep : PointRec) : Graph :=
  let dte := dist data ep.v
  let maxobs := ep.p_id.layer
  let descR := (List.range' (level + 1) (maxobs - level)).reverse
  let d := descentLoop dist data newPid fuel descR (g1, ep, dte)
  let beamR := (List.range (level + 1)).reverse
  let b := beamLoop dist data newPid fuel beamR (d.1, d.2.1)
  reverseUpdate newPid level b.1.max_nb_connection
    (List.range (level + 1)).reverse b.1

/-- `Hnsw::insert_slice((data, origin_id))` with the sampled level made
explicit.  Sequential semantics: the phases run in program order. -/
def insert (dist : Dist) (fuel : Nat) (g : Graph) (data : List ℤ)
    (origin_id level : Nat) : Graph :=
  let gnp := generateNewPoint g data origin_id level
  let g1 := gnp.1
  let newPid := gnp.2.1
  let rank := gnp.2.2
  match g1.entry_point with
  | none => checkEntryPoint g1 newPid
  | some epid =>
      if rank = 1 then g1
      else
        match rawGet g1 epid with
        | none => g1
        | some ep =>
            checkEntryPoint (insertLinked dist fuel data newPid level g1 ep)
              newPid

/-- `Hnsw::new(max_nb_connection, max_elements, max_layer, ef_construction,
f)`: the fresh index (capacity hints are irrelevant to the model). -/
def mkEmptyGraph (max_nb_connection max_layer ef_construction : Nat)
    (extendC keepPruned : Bool) : Graph :=
  let adjusted := min NB_LAYER_MAX max_layer
  { max_nb_connection := max_nb_connection,
    ef_construction := ef_construction,
    extend_candidates := extendC,
    keep_pruned := keepPruned,
    max_layer := adjusted,
    points_by_layer := List.replicate adjusted [],
    nb_point := 0,
    entry_point := none }

/-- A sequence of insertions `(data, origin_id, level)` applied in order. -/
def buildAll (dist : Dist) (fuel : Nat) (g0 : Graph)
    (reqs : List (List ℤ × Nat × Nat)) : Graph :=
  reqs.foldl (fun g r => insert dist fuel g r.1 r.2.1 r.2.2) g0

/-! ## Concrete instances used by counterexamples and witnesses -/

/-- A small parameter set: `M = 2`, `max_layer = 16`, `ef_construction = 4`. -/
def smallParams : Graph := mkEmptyGraph 2 16 4 false false

/-- One point `[0]` with id 0 inserted at level 0. -/
def oneGraph : Graph := buildAll distL1Int 10 smallParams [([0], 0, 0)]

/-- Two points: `[0]` (id 0) at level 1, then `[1]` (id 1) at level 0. -/
def twoGraph : Graph :=
  buildAll distL1Int 10 smallParams [([0], 0, 1), ([1], 1, 0)]

/-- A filter that rejects every id. -/
def rejectAll : Nat → Bool := fun _ => false

/-- The entry point record of `twoGraph` (the level-1 point `[0]`, which by
then carries the reverse link to the level-0 point in its layer-0 list). -/
def twoEntryRec : PointRec :=
  { v := [0], origin_id := 0, p_id := ⟨1, 0⟩,
    neighbours :=
      [[(⟨0, 0⟩, 1)], [], [], [], [], [], [], [],
        [], [], [], [], [], [], [], []] }

/-! ## Invariants (spec section 3, "Invariants") -/

/-- The immutable part of a stored point: `p_id`, `origin_id`, `v`.  Only the
`neighbours` field of existing points is ever mutated after insertion. -/
def core (p : PointRec) : PointId × Nat × List ℤ :=
  (p.p_id, p.origin_id, p.v)

/-- Two graphs with the same parameters, counters, entry point, layer sizes
and stored point cores: they differ at most in neighbour lists. -/
def SkelEq (g g' : Graph) : Prop :=
  g'.max_nb_connection = g.max_nb_connection ∧
  g'.ef_construction = g.ef_construction ∧
  g'.extend_candidates = g.extend_candidates ∧
  g'.keep_pruned = g.keep_pruned ∧
  g'.max_layer = g.max_layer ∧
  g'.nb_point = g.nb_point ∧
  g'.entry_point = g.entry_point ∧
  g'.points_by_layer.length = g.points_by_layer.length ∧
  (∀ i, (layerAt g' i).length = (layerAt g i).length) ∧
  ∀ i j, (storedAt g' i j).map core = (storedAt g i j).map core

/-- Invariant 4 of the spec for a single point: the level-0 list holds at most
`2·M` entries, any other level at most `M`. -/
def BoundsOK (M : Nat) (p : PointRec) : Prop :=
  (nbhdOf p 0).length ≤ 2 * M ∧ ∀ l, 0 < l → (nbhdOf p l).length ≤ M

/-- Invariant 4 of the spec for the whole store. -/
def Bounds (g : Graph) : Prop :=
  ∀ p ∈ allPoints g, BoundsOK g.max_nb_connection p

/-- The entry point's layer (0 when the store is empty). -/
def entryLevel (g : Graph) : Nat :=
  match g.entry_point with
  | some e => e.layer
  | none => 0

/-- Every stored point has empty neighbour lists strictly above `B`. -/
def EmptyAbove (B : Nat) (g : Graph) : Prop :=
  ∀ p ∈ allPoints g, ∀ l, B < l → nbhdOf p l = []

/-- A single mutation step of the insertion: skeleton preserved, bounds
preserved, emptiness above `B` preserved. -/
def StepOK (B : Nat) (g g' : Graph) : Prop :=
  SkelEq g g' ∧ (Bounds g → Bounds g') ∧ (EmptyAbove B g → EmptyAbove B g')

/-- Points are stored at the coordinates recorded in their `p_id`
(`generate_new_point` sets `p_id = (level, len(layer))` and pushes). -/
def HomeIds (g : Graph) : Prop :=
  ∀ i j p, storedAt g i j = some p → p.p_id = ⟨i, (j : Int)⟩

/-- Invariant 3 of the spec: `entry_point` is `None` iff the store is empty,
and otherwise it dereferences to a stored point whose layer bounds every
stored point's layer. -/
def EntryOK (g : Graph) : Prop :=
  (g.entry_point = none ↔ g.nb_point = 0) ∧
  ∀ e, g.entry_point = some e →
    (∃ p, rawGet g e = some p) ∧ ∀ p ∈ allPoints g, p.p_id.layer ≤ e.layer

/-- The combined well-formedness invariant maintained by `insert`. -/
def WF (g : Graph) : Prop :=
  g.points_by_layer.length = g.max_layer ∧
  g.nb_point = (allPoints g).length ∧
  HomeIds g ∧ EntryOK g ∧ Bounds g ∧ EmptyAbove (entryLevel g) g

/-! # Theorems -/

/-! ## C1 support: the chunked SIMD sum equals the scalar sum -/

theorem pairSum_nil_left {α : Type} [AddCommMonoid α] (f : α → α → α)
    (vb : List α) : pairSum f [] vb = 0 := by
  simp [pairSum]

theorem pairSum_split {α : Type} [AddCommMonoid α] (f : α → α → α)
    (k : Nat) (va vb : List α) (h : va.length = vb.length) :
    pairSum f va vb =
      pairSum f (va.take k) (vb.take k) + pairSum f (va.drop k) (vb.drop k) := by
  unfold pairSum
  have hz : va.zip vb =
      (va.take k).zip (vb.take k) ++ (va.drop k).zip (vb.drop k) := by
    conv_lhs => rw [← List.take_append_drop k va, ← List.take_append_drop k vb]
    rw [List.zip_append (by simp [h])]
  rw [hz, List.map_append, List.sum_append]

theorem chunkSum_add_tail {α : Type} [AddCommMonoid α] (f : α → α → α)
    (k : Nat) (hk : 0 < k) :
    ∀ (n : Nat) (va vb : List α), va.length ≤ n → va.length = vb.length →
      chunkSum f k n va vb +
          pairSum f (va.drop (va.length - va.length % k))
            (vb.drop (va.length - va.length % k)) =
        pairSum f va vb := by
  intro n
  induction n with
  | zero =>
      intro va vb hn hlen
      have hva : va = [] := List.eq_nil_of_length_eq_zero (Nat.le_zero.mp hn)
      subst hva
      have hvb : vb = [] := List.eq_nil_of_length_eq_zero (by simp [← hlen])
      subst hvb
      simp [chunkSum, pairSum]
  | succ n ih =>
      intro va vb hn hlen
      by_cases hka : k ≤ va.length
      · have hmod : va.length % k = (va.length - k) % k := by
          conv_lhs => rw [← Nat.sub_add_cancel hka]
          rw [Nat.add_mod_right]
        have hcle : (va.length - k) % k ≤ va.length - k := Nat.mod_le _ _
        have hsz : va.length - va.length % k =
            k + ((va.drop k).length - (va.drop k).length % k) := by
          rw [List.length_drop, hmod]
          omega
        have hchunk : chunkSum f k (n + 1) va vb =
            pairSum f (va.take k) (vb.take k) +
              chunkSum f k n (va.drop k) (vb.drop k) := by
          rw [chunkSum, if_pos ⟨hka, hlen ▸ hka⟩]
          rfl
        rw [hchunk, hsz]
        have hdd : ∀ (l : List α),
            l.drop (k + ((va.drop k).length - (va.drop k).length % k)) =
              (l.drop k).drop ((va.drop k).length - (va.drop k).length % k) := by
          intro l
          simp [List.drop_drop, Nat.add_comm]
        have hlen' : (va.drop k).length = (vb.drop k).length := by
          simp [hlen]
        have hlen'' : (va.drop k).length ≤ n := by
          simp only [List.length_drop]
          omega
        have ih' := ih (va.drop k) (vb.drop k) hlen'' hlen'
        rw [hdd va, hdd vb, add_assoc, ih']
        exact (pairSum_split f k va vb hlen).symm
      · have hmod : va.length % k = va.length := Nat.mod_eq_of_lt (by omega)
        have hchunk : chunkSum f k (n + 1) va vb = 0 := by
          rw [chunkSum, if_neg (by omega)]
        rw [hchunk, hmod]
        simp

theorem chunkSum_congr {α : Type} [AddCommMonoid α] (f f' : α → α → α)
    (hf : ∀ a b, f a b = f' a b) (k : Nat) :
    ∀ (n : Nat) (va vb : List α), chunkSum f k n va vb = chunkSum f' k n va vb := by
  intro n
  induction n with
  | zero => intro va vb; rfl
  | succ n ih =>
      intro va vb
      rw [chunkSum, chunkSum]
      by_cases h : k ≤ va.length ∧ k ≤ vb.length
      · rw [if_pos h, if_pos h, ih]
        simp only [hf]
      · rw [if_neg h, if_neg h]

/-- C1 (amended): for equal-length slices, `DistL2::eval` for `f32` and for
`f64` equals the plain scalar sum of squared differences `Σ(aᵢ-bᵢ)²` — the
SIMD chunked path agrees exactly with the scalar definition in exact
arithmetic — but no square root is taken (the `simd_l2_distance` macro returns
`c + d` directly), unlike the generic integer instantiations of `DistL2`. -/
theorem c1_l2_simd_eq_scalar_sum (va vb : List ℚ) (h : va.length = vb.length) :
    distL2F32 va vb = l2ScalarSum va vb ∧ distL2F64 va vb = l2ScalarSum va vb := by
  constructor
  · unfold distL2F32 l2ScalarSum
    rw [chunkSum_congr (fun p q => (p - q) * (p - q)) (fun p q => (p - q) ^ 2)
      (by intro a b; ring) 16]
    exact chunkSum_add_tail (fun p q => (p - q) ^ 2) 16 (by norm_num)
      va.length va vb le_rfl h
  · unfold distL2F64 l2ScalarSum
    rw [chunkSum_congr (fun p q => (p - q) * (p - q)) (fun p q => (p - q) ^ 2)
      (by intro a b; ring) 8]
    exact chunkSum_add_tail (fun p q => (p - q) ^ 2) 8 (by norm_num)
      va.length va vb le_rfl h

/-- C1 witness: the amended statement applied at the concrete equal-length
slices `[1, 2]` and `[3, 1]`. -/
theorem c1_l2_simd_eq_scalar_sum_witness :
    ([(1 : ℚ), 2].length = [(3 : ℚ), 1].length) ∧
      distL2F32 [(1 : ℚ), 2] [3, 1] = l2ScalarSum [(1 : ℚ), 2] [3, 1] ∧
      distL2F64 [(1 : ℚ), 2] [3, 1] = l2ScalarSum [(1 : ℚ), 2] [3, 1] :=
  ⟨rfl, c1_l2_simd_eq_scalar_sum [1, 2] [3, 1] rfl⟩

/-- C1 counterexample: on `a = [3]`, `b = [0]`, the source's `DistL2::eval`
(f32) returns `9 = Σ(aᵢ-bᵢ)²`, while the square root demanded by the claim is
`3`; the two disagree, so `eval` does not return `√Σ(aᵢ-bᵢ)²`. -/
theorem c1_counterexample :
    distL2F32 [3] [0] = 9 ∧ specDistL2 [3] [0] = 3 ∧
      ((distL2F32 [3] [0] : ℚ) : ℝ) ≠ specDistL2 [3] [0] := by
  have h32 : distL2F32 [3] [0] = 9 := by
    norm_num [distL2F32, chunkSum, pairSum]
  have hsum : l2ScalarSum [3] [0] = (9 : ℚ) := by
    norm_num [l2ScalarSum, pairSum]
  have hspec : specDistL2 [3] [0] = 3 := by
    rw [specDistL2, hsum]
    rw [show (((9 : ℚ) : ℝ)) = 3 ^ 2 by norm_num]
    exact Real.sqrt_sq (by norm_num)
  refine ⟨h32, hspec, ?_⟩
  rw [h32, hspec]
  norm_num

/-! ## C7: DistJeffreys -/

/-- C7: the `f64` instantiation of `DistJeffreys::eval` does not return
`Σ(aᵢ-bᵢ)·ln(max(aᵢ,1e-30)/max(bᵢ,1e-30))`: its fold accumulates `acc + t*t`,
so on `a = [2]`, `b = [1]` it returns `(ln 2)² ≠ ln 2`, while the `f32`
instantiation returns the claimed sum.  This contradicts the doc comment of
`DistJeffreys` itself ("the distance is computed as: sum (p[i]-q[i]) *
ln(p[i]/q[i])"), so the `f64` code is a slip. -/
theorem c7_jeffreys_f64_squares_terms :
    distJeffreysF64 [2] [1] = Real.log 2 * Real.log 2 ∧
      distJeffreysF32 [2] [1] = Real.log 2 ∧
      distJeffreysF64 [2] [1] ≠
        (2 - 1) * Real.log (max 2 mMIN / max 1 mMIN) := by
  have hm2 : max (2 : ℝ) mMIN = 2 := max_eq_left (by norm_num [mMIN])
  have hm1 : max (1 : ℝ) mMIN = 1 := max_eq_left (by norm_num [mMIN])
  have hterm : ((2 : ℝ) - 1) * Real.log (max 2 mMIN / max 1 mMIN) = Real.log 2 := by
    rw [hm2, hm1]
    norm_num
  have h64 : distJeffreysF64 [2] [1] = Real.log 2 * Real.log 2 := by
    simp only [distJeffreysF64, List.zip_cons_cons, List.zip_nil_right,
      List.map_cons, List.map_nil, List.foldl_cons, List.foldl_nil, hm2, hm1]
    norm_num
  have h32 : distJeffreysF32 [2] [1] = Real.log 2 := by
    simp only [distJeffreysF32, List.zip_cons_cons, List.zip_nil_right,
      List.map_cons, List.map_nil, List.foldl_cons, List.foldl_nil, hm2, hm1]
    norm_num
  refine ⟨h64, h32, ?_⟩
  rw [h64, hterm]
  have hpos : 0 < Real.log 2 := Real.log_pos (by norm_num)
  have hlt : Real.log 2 < 1 := by
    have := Real.log_two_lt_d9
    linarith
  have : Real.log 2 * Real.log 2 < Real.log 2 :=
    mul_lt_of_lt_one_left hpos hlt
  exact ne_of_lt this

/-! ## C8: search on an empty index -/

/-- C8: for every query vector, `k`, `ef` and optional filter, searching an
index that holds zero points returns the empty list (the entry point of an
empty index is `None` — spec invariant 3 — and `search_filter` returns
immediately in that case), with no error or panic: the function is total. -/
theorem c8_empty_index_search (dist : Dist) (g : Graph) (data : List ℤ)
    (knbn ef : Nat) (filter : Option (Nat → Bool)) (fuel : Nat)
    (hiff : g.entry_point = none ↔ g.nb_point = 0) (h0 : g.nb_point = 0) :
    searchFilter dist g data knbn ef filter fuel = [] := by
  have he : g.entry_point = none := hiff.mpr h0
  simp [searchFilter, he]

/-- C8 witness: a freshly built index with `M = 10`, `ef_construction = 25`. -/
theorem c8_empty_index_search_witness :
    ((mkEmptyGraph 10 16 25 false false).entry_point = none ↔
        (mkEmptyGraph 10 16 25 false false).nb_point = 0) ∧
      (mkEmptyGraph 10 16 25 false false).nb_point = 0 ∧
      searchFilter distL1Int (mkEmptyGraph 10 16 25 false false) [0, 1] 5 7
        none 9 = [] :=
  ⟨by decide, by decide,
    c8_empty_index_search distL1Int (mkEmptyGraph 10 16 25 false false)
      [0, 1] 5 7 none 9 (by decide) (by decide)⟩

/-! ## C9: parallel_search preserves input order -/

theorem lookup_eq_of_mem_of_nodup {β : Type} (l : List (Nat × β))
    (h : (l.map Prod.fst).Nodup) (a : Nat) (b : β) (hm : (a, b) ∈ l) :
    l.lookup a = some b := by
  induction l with
  | nil => cases hm
  | cons p t ih =>
      rcases List.mem_cons.mp hm with hhead | htail
      · subst hhead
        simp [List.lookup]
      · have h' := h
        rw [List.map_cons] at h'
        have hnd := List.nodup_cons.mp h'
        have hne : a ≠ p.1 := by
          intro he
          exact hnd.1 (he ▸ List.mem_map_of_mem Prod.fst htail)
        have hb : (a == p.1) = false := beq_eq_false_iff_ne.mpr hne
        simp only [List.lookup, hb]
        exact ih hnd.2 htail

/-- C9: for any arrival order of the per-query results over the channel (any
permutation `req_res` of the indexed request results), the reassembly of
`parallel_search` returns one result list per query, the `i`-th output being
`search` on the `i`-th input query. -/
theorem c9_parallel_search_order (dist : Dist) (g : Graph)
    (datas : List (List ℤ)) (knbn ef fuel : Nat)
    (req_res : List (Nat × List Neighbour))
    (hperm : req_res.Perm (requestResults dist g datas knbn ef fuel)) :
    parallelSearch datas req_res =
      datas.map (fun d => search dist g d knbn ef fuel) := by
  have hkeys : (requestResults dist g datas knbn ef fuel).map Prod.fst =
      List.range datas.length := by
    unfold requestResults
    rw [List.map_map]
    have hcomp : (Prod.fst ∘ fun it : Nat × List ℤ =>
        (it.1, search dist g it.2 knbn ef fuel)) = Prod.fst := rfl
    rw [hcomp]
    exact List.map_fst_zip _ _ (by simp)
  have hnodup : (req_res.map Prod.fst).Nodup := by
    have hp := hperm.map Prod.fst
    rw [hkeys] at hp
    exact hp.nodup_iff.mpr (List.nodup_range _)
  have hmem : ∀ (i : Nat) (hi : i < datas.length),
      (i, search dist g datas[i] knbn ef fuel) ∈ req_res := by
    intro i hi
    rw [hperm.mem_iff]
    unfold requestResults
    apply List.mem_map.mpr
    refine ⟨(i, datas[i]), ?_, rfl⟩
    have hb : i < ((List.range datas.length).zip datas).length := by simp [hi]
    have hmm := List.getElem_mem hb
    rwa [List.getElem_zip, List.getElem_range] at hmm
  apply List.ext_getElem
  · simp [parallelSearch]
  · intro i h1 h2
    simp only [parallelSearch, List.getElem_map, List.getElem_range]
    rw [lookup_eq_of_mem_of_nodup req_res hnodup i _
      (hmem i (by simpa [parallelSearch] using h1))]
    rfl

/-- C9 witness: a two-query batch whose results arrive in reversed order is
reassembled into input order. -/
theorem c9_parallel_search_order_witness :
    ((requestResults distL1Int oneGraph [[0], [5]] 1 2 9).reverse.Perm
        (requestResults distL1Int oneGraph [[0], [5]] 1 2 9)) ∧
      parallelSearch [[0], [5]]
          (requestResults distL1Int oneGraph [[0], [5]] 1 2 9).reverse =
        [[0], [5]].map (fun d => search distL1Int oneGraph d 1 2 9) :=
  ⟨List.reverse_perm _,
    c9_parallel_search_order distL1Int oneGraph [[0], [5]] 1 2 9 _
      (List.reverse_perm _)⟩

/-! ## C10: get_point / get_point_data boundary behaviour -/

/-- C10: `get_point_data` and `get_point` return `None` on a negative slot, on
a layer above the maximum observed level, or on a slot out of range for the
layer (no panic: the functions are total), and return the stored point
(respectively its vector) at any valid `PointId`. -/
theorem c10_get_point_checks (g : Graph) (pid : PointId) :
    (pid.slot < 0 → getPointData g pid = none ∧ getPoint g pid = none) ∧
    (getMaxLevelObserved g < pid.layer →
      getPointData g pid = none ∧ getPoint g pid = none) ∧
    (getLayerNbPoint g pid.layer ≤ pid.slot.toNat →
      getPointData g pid = none ∧ getPoint g pid = none) ∧
    (0 ≤ pid.slot → pid.layer ≤ getMaxLevelObserved g →
      pid.slot.toNat < getLayerNbPoint g pid.layer →
      getPoint g pid = (layerAt g pid.layer)[pid.slot.toNat]? ∧
        getPointData g pid =
          ((layerAt g pid.layer)[pid.slot.toNat]?).map (fun p => p.v)) := by
  refine ⟨?_, ?_, ?_, ?_⟩
  · intro h
    simp [getPointData, getPoint, h]
  · intro h
    have hcond : ¬(pid.layer ≤ getMaxLevelObserved g ∧
        pid.slot.toNat < getLayerNbPoint g pid.layer) := by omega
    by_cases h1 : pid.slot < 0
    · simp [getPointData, getPoint, h1]
    · simp [getPointData, getPoint, h1, hcond]
  · intro h
    have hcond : ¬(pid.layer ≤ getMaxLevelObserved g ∧
        pid.slot.toNat < getLayerNbPoint g pid.layer) := by omega
    by_cases h1 : pid.slot < 0
    · simp [getPointData, getPoint, h1]
    · simp [getPointData, getPoint, h1, hcond]
  · intro h0 hl hs
    have h1 : ¬ pid.slot < 0 := by omega
    simp [getPointData, getPoint, h1, hl, hs]

/-! ## Heap and sort lemmas -/

theorem heapPopMax_none_iff {α : Type} :
    ∀ (l : List (α × ℤ)), heapPopMax l = none ↔ l = [] := by
  intro l
  cases l with
  | nil => simp [heapPopMax]
  | cons a t =>
      simp only [heapPopMax]
      constructor
      · intro h
        cases ht : heapPopMax t with
        | none =>
            rw [ht] at h
            dsimp only at h
            exact (Option.some_ne_none _ h).elim
        | some pr =>
            obtain ⟨y, ys⟩ := pr
            rw [ht] at h
            dsimp only at h
            by_cases hlt : a.2 < y.2
            · rw [if_pos hlt] at h
              exact (Option.some_ne_none _ h).elim
            · rw [if_neg hlt] at h
              exact (Option.some_ne_none _ h).elim
      · intro h
        exact (List.cons_ne_nil a t h).elim

theorem heapPopMax_subset {α : Type} :
    ∀ (l : List (α × ℤ)) (y : α × ℤ) (rest : List (α × ℤ)),
      heapPopMax l = some (y, rest) → y ∈ l ∧ ∀ x ∈ rest, x ∈ l := by
  intro l
  induction l with
  | nil => intro y rest h; cases h
  | cons a t ih =>
      intro y rest h
      rw [heapPopMax] at h
      cases ht : heapPopMax t with
      | none =>
          rw [ht] at h
          dsimp only at h
          cases h
          exact ⟨List.mem_cons_self _ _, by intro x hx; cases hx⟩
      | some pr =>
          obtain ⟨y', ys⟩ := pr
          rw [ht] at h
          dsimp only at h
          by_cases hlt : a.2 < y'.2
          · rw [if_pos hlt] at h
            cases h
            obtain ⟨hy'm, hysm⟩ := ih _ _ ht
            refine ⟨List.mem_cons_of_mem _ hy'm, ?_⟩
            intro x hx
            rcases List.mem_cons.mp hx with rfl | hx'
            · exact List.mem_cons_self _ _
            · exact List.mem_cons_of_mem _ (hysm x hx')
          · rw [if_neg hlt] at h
            cases h
            exact ⟨List.mem_cons_self _ _, fun x hx => List.mem_cons_of_mem _ hx⟩

theorem heapPopMax_length {α : Type} :
    ∀ (l : List (α × ℤ)) (y : α × ℤ) (rest : List (α × ℤ)),
      heapPopMax l = some (y, rest) → rest.length + 1 = l.length := by
  intro l
  induction l with
  | nil => intro y rest h; cases h
  | cons a t ih =>
      intro y rest h
      rw [heapPopMax] at h
      cases ht : heapPopMax t with
      | none =>
          rw [ht] at h
          dsimp only at h
          cases h
          have hnil : t = [] := (heapPopMax_none_iff t).mp ht
          simp [hnil]
      | some pr =>
          obtain ⟨y', ys⟩ := pr
          rw [ht] at h
          dsimp only at h
          by_cases hlt : a.2 < y'.2
          · rw [if_pos hlt] at h
            cases h
            have := ih _ _ ht
            simp only [List.length_cons]
            omega
          · rw [if_neg hlt] at h
            cases h
            rfl

theorem heapPeekMax_mem {α : Type} :
    ∀ (l : List (α × ℤ)) (y : α × ℤ), heapPeekMax l = some y → y ∈ l := by
  intro l
  induction l with
  | nil => intro y h; cases h
  | cons a t ih =>
      intro y h
      rw [heapPeekMax] at h
      cases ht : heapPeekMax t with
      | none =>
          rw [ht] at h
          dsimp only at h
          cases h
          exact List.mem_cons_self _ _
      | some y' =>
          rw [ht] at h
          dsimp only at h
          by_cases hlt : a.2 < y'.2
          · rw [if_pos hlt] at h
            cases h
            exact List.mem_cons_of_mem _ (ih _ ht)
          · rw [if_neg hlt] at h
            cases h
            exact List.mem_cons_self _ _

theorem heapDropMax_subset {α : Type} (l : List (α × ℤ)) :
    ∀ x ∈ heapDropMax l, x ∈ l := by
  intro x hx
  rw [heapDropMax] at hx
  cases hp : heapPopMax l with
  | none => rw [hp] at hx; cases hx
  | some pr =>
      obtain ⟨y, rest⟩ := pr
      rw [hp] at hx
      exact (heapPopMax_subset l y rest hp).2 x hx

theorem heapDropMax_length_le {α : Type} (l : List (α × ℤ)) :
    (heapDropMax l).length ≤ l.length := by
  rw [heapDropMax]
  cases hp : heapPopMax l with
  | none => simp
  | some pr =>
      obtain ⟨y, rest⟩ := pr
      dsimp only
      have := heapPopMax_length l y rest hp
      omega

theorem sortByDist_perm {α : Type} (l : List (α × ℤ)) :
    (sortByDist l).Perm l :=
  List.perm_insertionSort _ l

theorem sortByDist_sorted {α : Type} (l : List (α × ℤ)) :
    List.Sorted (fun a b => a.2 ≤ b.2) (sortByDist l) :=
  List.sorted_insertionSort _ l

/-! ## search_layer invariants -/

theorem innerLoop_nonneg (dist : Dist) (g : Graph) (data : List ℤ)
    (ef : Nat) (filter : Option (Nat → Bool)) (hd : ∀ a b, 0 ≤ dist a b) :
    ∀ (es : List (PointId × ℤ)) (visited : List PointId) (cands ret : List PWO),
      (∀ x ∈ ret, 0 ≤ x.2) →
      ∀ x ∈ (innerLoop dist g data ef filter es visited cands ret).2.2.2,
        0 ≤ x.2 := by
  intro es
  induction es with
  | nil => intro visited cands ret hret x hx; exact hret x hx
  | cons e es ih =>
      intro visited cands ret hret x hx
      rw [innerLoop] at hx
      by_cases hv : e.1 ∈ visited
      · rw [if_pos hv] at hx
        exact ih visited cands ret hret x hx
      · rw [if_neg hv] at hx
        cases hg : rawGet g e.1 with
        | none =>
            rw [hg] at hx
            dsimp only at hx
            exact ih _ cands ret hret x hx
        | some ep =>
            rw [hg] at hx
            dsimp only at hx
            cases hpk : heapPeekMax ret with
            | none =>
                rw [hpk] at hx
                dsimp only at hx
                exact hret x hx
            | some f =>
                rw [hpk] at hx
                dsimp only at hx
                by_cases hcond : dist data ep.v < f.2 ∨ ret.length < ef
                · rw [if_pos hcond] at hx
                  have hed : 0 ≤ dist data ep.v := hd _ _
                  cases filter with
                  | none =>
                      dsimp only at hx
                      refine ih _ _ _ ?_ x hx
                      intro y hy
                      by_cases hl : ef < ((ep, dist data ep.v) :: ret).length
                      · rw [if_pos hl] at hy
                        rcases List.mem_cons.mp (heapDropMax_subset _ y hy)
                          with rfl | hy'
                        · exact hed
                        · exact hret y hy'
                      · rw [if_neg hl] at hy
                        rcases List.mem_cons.mp hy with rfl | hy'
                        · exact hed
                        · exact hret y hy'
                  | some phi =>
                      dsimp only at hx
                      have hsub : ∀ y ∈ (if phi ep.origin_id then
                          (ep, dist data ep.v) ::
                            (if (ret.length == 1 && !phi f.1.origin_id : Bool)
                              then [] else ret)
                          else ret), 0 ≤ y.2 := by
                        by_cases hphi : phi ep.origin_id = true
                        · rw [if_pos hphi]
                          intro y hy
                          rcases List.mem_cons.mp hy with rfl | hy'
                          · exact hed
                          · by_cases hc :
                                (ret.length == 1 && !phi f.1.origin_id : Bool)
                                  = true
                            · rw [if_pos hc] at hy'
                              cases hy'
                            · rw [if_neg hc] at hy'
                              exact hret y hy'
                        · rw [if_neg hphi]
                          exact hret
                      refine ih _ _ _ ?_ x hx
                      intro y hy
                      by_cases hl : ef < (if phi ep.origin_id then
                          (ep, dist data ep.v) ::
                            (if (ret.length == 1 && !phi f.1.origin_id : Bool)
                              then [] else ret)
                          else ret).length
                      · rw [if_pos hl] at hy
                        exact hsub y (heapDropMax_subset _ y hy)
                      · rw [if_neg hl] at hy
                        exact hsub y hy
                · rw [if_neg hcond] at hx
                  exact ih _ _ ret hret x hx

theorem searchLoop_nonneg (dist : Dist) (g : Graph) (data : List ℤ)
    (ef layer : Nat) (filter : Option (Nat → Bool))
    (hd : ∀ a b, 0 ≤ dist a b) :
    ∀ (fuel : Nat) (visited : List PointId) (cands ret : List PWO),
      (∀ x ∈ ret, 0 ≤ x.2) →
      ∀ x ∈ searchLoop dist g data ef layer filter fuel visited cands ret,
        0 ≤ x.2 := by
  intro fuel
  induction fuel with
  | zero => intro visited cands ret hret x hx; exact hret x hx
  | succ fuel ih =>
      intro visited cands ret hret x hx
      rw [searchLoop] at hx
      cases hp : heapPopMax cands with
      | none =>
          rw [hp] at hx
          exact hret x hx
      | some pr =>
          obtain ⟨c, cands'⟩ := pr
          rw [hp] at hx
          dsimp only at hx
          cases hpk : heapPeekMax ret with
          | none =>
              rw [hpk] at hx
              exact hret x hx
          | some f =>
              rw [hpk] at hx
              dsimp only at hx
              by_cases hstop : f.2 < -c.2 ∧ (filter.isNone ∨ ef ≤ ret.length)
              · rw [if_pos hstop] at hx
                exact hret x hx
              · rw [if_neg hstop] at hx
                have hinner := innerLoop_nonneg dist g data ef filter hd
                  (nbhdOf c.1 layer) visited cands' ret hret
                rcases hil : innerLoop dist g data ef filter
                    (nbhdOf c.1 layer) visited cands' ret with ⟨b, vs, cs, rs⟩
                rw [hil] at hx
                rw [hil] at hinner
                cases b with
                | true => exact hinner x hx
                | false => exact ih vs cs rs (fun y hy => hinner y hy) x hx

theorem searchLayer_nonneg (dist : Dist) (g : Graph) (data : List ℤ)
    (entry : PointRec) (ef layer : Nat) (filter : Option (Nat → Bool))
    (fuel : Nat) (hd : ∀ a b, 0 ≤ dist a b) :
    ∀ x ∈ searchLayer dist g data entry ef layer filter fuel, 0 ≤ x.2 := by
  intro x hx
  rw [searchLayer] at hx
  by_cases h1 : (layerAt g layer).isEmpty
  · rw [if_pos h1] at hx
    cases hx
  · rw [if_neg h1] at hx
    by_cases h2 : entry.p_id.slot < 0
    · rw [if_pos h2] at hx
      cases hx
    · rw [if_neg h2] at hx
      refine searchLoop_nonneg dist g data ef layer filter hd fuel
        [entry.p_id] [(entry, -(dist data entry.v))]
        [(entry, dist data entry.v)] ?_ x hx
      intro y hy
      rcases List.mem_cons.mp hy with rfl | hy'
      · exact hd _ _
      · cases hy'

theorem innerLoop_filterInv (dist : Dist) (g : Graph) (data : List ℤ)
    (ef : Nat) (phi : Nat → Bool) :
    ∀ (es : List (PointId × ℤ)) (visited : List PointId) (cands ret : List PWO),
      ((∀ x ∈ ret, phi x.1.origin_id = true) ∨ ret.length ≤ 1) →
      ((∀ x ∈ (innerLoop dist g data ef (some phi) es visited
            cands ret).2.2.2, phi x.1.origin_id = true) ∨
        (innerLoop dist g data ef (some phi) es visited cands ret).2.2.2.length
          ≤ 1) := by
  intro es
  induction es with
  | nil => intro visited cands ret hret; exact hret
  | cons e es ih =>
      intro visited cands ret hret
      rw [innerLoop]
      by_cases hv : e.1 ∈ visited
      · rw [if_pos hv]
        exact ih visited cands ret hret
      · rw [if_neg hv]
        cases hg : rawGet g e.1 with
        | none =>
            dsimp only
            exact ih _ cands ret hret
        | some ep =>
            dsimp only
            cases hpk : heapPeekMax ret with
            | none =>
                dsimp only
                exact hret
            | some f =>
                dsimp only
                by_cases hcond : dist data ep.v < f.2 ∨ ret.length < ef
                · rw [if_pos hcond]
                  by_cases hphi : phi ep.origin_id = true
                  · rw [if_pos hphi]
                    have hret' : ∀ y ∈ (ep, dist data ep.v) ::
                        (if (ret.length == 1 && !phi f.1.origin_id : Bool)
                          then [] else ret),
                        phi y.1.origin_id = true := by
                      by_cases hc :
                          (ret.length == 1 && !phi f.1.origin_id : Bool) = true
                      · rw [if_pos hc]
                        intro y hy
                        rcases List.mem_cons.mp hy with rfl | hy'
                        · exact hphi
                        · cases hy'
                      · rw [if_neg hc]
                        intro y hy
                        rcases List.mem_cons.mp hy with rfl | hy'
                        · exact hphi
                        · rcases hret with hall | hlen
                          · exact hall y hy'
                          · rcases Nat.le_one_iff_eq_zero_or_eq_one.mp hlen
                              with h0 | h1
                            · rw [List.length_eq_zero.mp h0] at hy'
                              cases hy'
                            · obtain ⟨o, rfl⟩ := List.length_eq_one.mp h1
                              have hfo : f = o := by
                                have : heapPeekMax [o] = some o := by
                                  simp [heapPeekMax]
                                rw [this] at hpk
                                exact (Option.some.inj hpk).symm
                              have hco : phi o.1.origin_id = true := by
                                by_contra hno
                                apply hc
                                simp only [Bool.and_eq_true, beq_iff_eq]
                                refine ⟨by simp, ?_⟩
                                rw [hfo]
                                simp only [Bool.not_eq_true] at hno
                                simp [hno]
                              rcases List.mem_cons.mp hy' with rfl | hy''
                              · exact hco
                              · cases hy''
                    refine ih _ _ _ ?_
                    by_cases hl : ef < ((ep, dist data ep.v) ::
                        (if (ret.length == 1 && !phi f.1.origin_id : Bool)
                          then [] else ret)).length
                    · rw [if_pos hl]
                      exact Or.inl (fun y hy =>
                        hret' y (heapDropMax_subset _ y hy))
                    · rw [if_neg hl]
                      exact Or.inl hret'
                  · rw [if_neg hphi]
                    refine ih _ _ _ ?_
                    by_cases hl : ef < ret.length
                    · rw [if_pos hl]
                      rcases hret with hall | hlen
                      · exact Or.inl (fun y hy =>
                          hall y (heapDropMax_subset _ y hy))
                      · exact Or.inr (le_trans (heapDropMax_length_le ret) hlen)
                    · rw [if_neg hl]
                      exact hret
                · rw [if_neg hcond]
                  exact ih _ _ ret hret

theorem searchLoop_filterInv (dist : Dist) (g : Graph) (data : List ℤ)
    (ef layer : Nat) (phi : Nat → Bool) :
    ∀ (fuel : Nat) (visited : List PointId) (cands ret : List PWO),
      ((∀ x ∈ ret, phi x.1.origin_id = true) ∨ ret.length ≤ 1) →
      ((∀ x ∈ searchLoop dist g data ef layer (some phi) fuel visited cands
            ret, phi x.1.origin_id = true) ∨
        (searchLoop dist g data ef layer (some phi) fuel visited cands
          ret).length ≤ 1) := by
  intro fuel
  induction fuel with
  | zero => intro visited cands ret hret; exact hret
  | succ fuel ih =>
      intro visited cands ret hret
      rw [searchLoop]
      cases hp : heapPopMax cands with
      | none => exact hret
      | some pr =>
          obtain ⟨c, cands'⟩ := pr
          dsimp only
          cases hpk : heapPeekMax ret with
          | none => exact hret
          | some f =>
              dsimp only
              by_cases hstop : f.2 < -c.2 ∧
                  ((some phi : Option (Nat → Bool)).isNone ∨ ef ≤ ret.length)
              · rw [if_pos hstop]
                exact hret
              · rw [if_neg hstop]
                have hinner := innerLoop_filterInv dist g data ef phi
                  (nbhdOf c.1 layer) visited cands' ret hret
                rcases hil : innerLoop dist g data ef (some phi)
                    (nbhdOf c.1 layer) visited cands' ret with ⟨b, vs, cs, rs⟩
                rw [hil] at hinner
                cases b with
                | true => exact hinner
                | false => exact ih vs cs rs hinner

theorem searchLayer_filterInv (dist : Dist) (g : Graph) (data : List ℤ)
    (entry : PointRec) (ef layer : Nat) (phi : Nat → Bool) (fuel : Nat) :
    (∀ x ∈ searchLayer dist g data entry ef layer (some phi) fuel,
        phi x.1.origin_id = true) ∨
      (searchLayer dist g data entry ef layer (some phi) fuel).length ≤ 1 := by
  rw [searchLayer]
  by_cases h1 : (layerAt g layer).isEmpty
  · rw [if_pos h1]
    exact Or.inr (by simp)
  · rw [if_neg h1]
    by_cases h2 : entry.p_id.slot < 0
    · rw [if_pos h2]
      exact Or.inr (by simp)
    · rw [if_neg h2]
      exact searchLoop_filterInv dist g data ef layer phi fuel
        [entry.p_id] [(entry, -(dist data entry.v))]
        [(entry, dist data entry.v)] (Or.inr (by simp))

/-- C10 witness: the valid id `(0, 0)` of a one-point index resolves to the
stored point and its vector. -/
theorem c10_get_point_checks_witness :
    ((0 : Int) ≤ (⟨0, 0⟩ : PointId).slot) ∧
      ((⟨0, 0⟩ : PointId).layer ≤ getMaxLevelObserved oneGraph) ∧
      ((⟨0, 0⟩ : PointId).slot.toNat < getLayerNbPoint oneGraph 0) ∧
      (getPoint oneGraph ⟨0, 0⟩ = (layerAt oneGraph 0)[(0 : Nat)]? ∧
        getPointData oneGraph ⟨0, 0⟩ =
          ((layerAt oneGraph 0)[(0 : Nat)]?).map (fun p => p.v)) :=
  ⟨by decide, by decide, by decide,
    (c10_get_point_checks oneGraph ⟨0, 0⟩).2.2.2 (by decide) (by decide)
      (by decide)⟩

/-! ## C2 and C4: search_filter result properties -/

theorem distL1Int_nonneg : ∀ a b, 0 ≤ distL1Int a b := by
  intro a b
  refine List.sum_nonneg ?_
  intro x hx
  obtain ⟨y, _, rfl⟩ := List.mem_map.mp hx
  exact abs_nonneg _

/-- C2 (amended): for every filter and query, `search_filter` returns at most
`k` neighbours, and either every returned `Neighbour` satisfies
`filter(data_id) = true` or the result is a single `Neighbour` — the entry
point of the layer-0 beam, which `search_layer` seeds into the result heap
before consulting the filter and which survives when no filter-passing
candidate is ever pushed. -/
theorem c2_filter_semantics (dist : Dist) (g : Graph) (data : List ℤ)
    (knbn ef_arg : Nat) (phi : Nat → Bool) (fuel : Nat) :
    (searchFilter dist g data knbn ef_arg (some phi) fuel).length ≤ knbn ∧
      ((∀ n ∈ searchFilter dist g data knbn ef_arg (some phi) fuel,
          phi n.d_id = true) ∨
        (searchFilter dist g data knbn ef_arg (some phi) fuel).length ≤ 1) := by
  rw [searchFilter]
  cases he : g.entry_point with
  | none => simp
  | some epid =>
      dsimp only
      cases hp : rawGet g epid with
      | none => simp
      | some entry =>
          dsimp only
          constructor
          · rw [List.length_map, List.length_take]
            omega
          · rcases searchLayer_filterInv dist g data
                (greedyDescend dist g data entry).1 (max ef_arg knbn) 0 phi
                fuel with hall | hlen
            · left
              intro n hn
              obtain ⟨x, hx, rfl⟩ := List.mem_map.mp hn
              have hx1 : x ∈ sortByDist (searchLayer dist g data
                  (greedyDescend dist g data entry).1 (max ef_arg knbn) 0
                  (some phi) fuel) := List.mem_of_mem_take hx
              have hx2 : x ∈ searchLayer dist g data
                  (greedyDescend dist g data entry).1 (max ef_arg knbn) 0
                  (some phi) fuel := (sortByDist_perm _).mem_iff.mp hx1
              exact hall x hx2
            · right
              rw [List.length_map, List.length_take]
              have hl := (sortByDist_perm (searchLayer dist g data
                  (greedyDescend dist g data entry).1 (max ef_arg knbn) 0
                  (some phi) fuel)).length_eq
              omega

/-- C2 counterexample: a one-point index searched with a filter that rejects
every id still returns that point (the layer-0 entry point is seeded into the
result heap unconditionally), so "every returned Neighbour satisfies
filter(data_id) = true" is false as stated. -/
theorem c2_counterexample :
    searchFilter distL1Int oneGraph [0] 1 1 (some rejectAll) 20 ≠ [] ∧
      ∀ n ∈ searchFilter distL1Int oneGraph [0] 1 1 (some rejectAll) 20,
        rejectAll n.d_id = false := by
  decide

/-- C4: on a non-empty index, `search(query, k, ef)` runs the layer-0 beam
search with width `max(k, ef)` on the pivot found by the greedy descent and
returns exactly `min(k, max(k, ef), |W|)` neighbours (where `W` is the beam
result), sorted by ascending distance, with non-negative distances whenever
the distance function is non-negative. -/
theorem c4_search_layer0 (dist : Dist) (g : Graph) (data : List ℤ)
    (knbn ef_arg fuel : Nat) (epid : PointId) (entry : PointRec)
    (he : g.entry_point = some epid) (hp : rawGet g epid = some entry)
    (hd : ∀ a b, 0 ≤ dist a b) :
    search dist g data knbn ef_arg fuel =
        ((sortByDist (searchLayer dist g data
            (greedyDescend dist g data entry).1 (max ef_arg knbn) 0 none
            fuel)).take (min knbn (min (max ef_arg knbn)
            (sortByDist (searchLayer dist g data
              (greedyDescend dist g data entry).1 (max ef_arg knbn) 0 none
              fuel)).length))).map toNeighbour ∧
      (search dist g data knbn ef_arg fuel).length =
        min knbn (min (max ef_arg knbn)
          (searchLayer dist g data (greedyDescend dist g data entry).1
            (max ef_arg knbn) 0 none fuel).length) ∧
      List.Sorted (fun a b => a.distance ≤ b.distance)
        (search dist g data knbn ef_arg fuel) ∧
      ∀ n ∈ search dist g data knbn ef_arg fuel, 0 ≤ n.distance := by
  have hs : search dist g data knbn ef_arg fuel =
      ((sortByDist (searchLayer dist g data
          (greedyDescend dist g data entry).1 (max ef_arg knbn) 0 none
          fuel)).take (min knbn (min (max ef_arg knbn)
          (sortByDist (searchLayer dist g data
            (greedyDescend dist g data entry).1 (max ef_arg knbn) 0 none
            fuel)).length))).map toNeighbour := by
    rw [search, searchFilter, he]
    dsimp only
    rw [hp]
  refine ⟨hs, ?_, ?_, ?_⟩
  · rw [hs, List.length_map, List.length_take]
    have hl := (sortByDist_perm (searchLayer dist g data
        (greedyDescend dist g data entry).1 (max ef_arg knbn) 0 none
        fuel)).length_eq
    omega
  · rw [hs]
    have hsorted := sortByDist_sorted (searchLayer dist g data
        (greedyDescend dist g data entry).1 (max ef_arg knbn) 0 none fuel)
    have htake := List.Pairwise.sublist
      (List.take_sublist (min knbn (min (max ef_arg knbn)
        (sortByDist (searchLayer dist g data
          (greedyDescend dist g data entry).1 (max ef_arg knbn) 0 none
          fuel)).length)) _) hsorted
    exact List.Pairwise.map toNeighbour (fun a b hab => hab) htake
  · rw [hs]
    intro n hn
    obtain ⟨x, hx, rfl⟩ := List.mem_map.mp hn
    have hx1 : x ∈ sortByDist (searchLayer dist g data
        (greedyDescend dist g data entry).1 (max ef_arg knbn) 0 none fuel) :=
      List.mem_of_mem_take hx
    have hx2 := (sortByDist_perm _).mem_iff.mp hx1
    exact searchLayer_nonneg dist g data (greedyDescend dist g data entry).1
      (max ef_arg knbn) 0 none fuel hd x hx2

/-- C4 witness: the two-point index, query `[1]`, `k = 2`, `ef = 3`. -/
theorem c4_search_layer0_witness :
    twoGraph.entry_point = some ⟨1, 0⟩ ∧
      rawGet twoGraph ⟨1, 0⟩ = some twoEntryRec ∧
      (∀ a b, 0 ≤ distL1Int a b) ∧
      (List.Sorted (fun a b => a.distance ≤ b.distance)
          (search distL1Int twoGraph [1] 2 3 20) ∧
        ∀ n ∈ search distL1Int twoGraph [1] 2 3 20, 0 ≤ n.distance) :=
  ⟨by decide, by decide, distL1Int_nonneg,
    (c4_search_layer0 distL1Int twoGraph [1] 2 3 20 ⟨1, 0⟩ twoEntryRec
      (by decide) (by decide) distL1Int_nonneg).2.2⟩

/-! ## modifyAt / setNbhd structural lemmas -/

theorem modifyAt_length {α : Type} (l : List α) (n : Nat) (f : α → α) :
    (modifyAt l n f).length = l.length := by
  rw [modifyAt]
  cases h : l[n]? with
  | none => rfl
  | some a => simp

theorem getElem?_modifyAt_ne {α : Type} (l : List α) (n : Nat) (f : α → α)
    (m : Nat) (h : m ≠ n) : (modifyAt l n f)[m]? = l[m]? := by
  rw [modifyAt]
  cases h' : l[n]? with
  | none => rfl
  | some a =>
      rw [List.getElem?_set]
      rw [if_neg (fun he => h he.symm)]

theorem getElem?_modifyAt_self {α : Type} (l : List α) (n : Nat) (f : α → α) :
    (modifyAt l n f)[n]? = (l[n]?).map f := by
  rw [modifyAt]
  cases h' : l[n]? with
  | none =>
      dsimp only
      simpa using h'
  | some a =>
      dsimp only
      have hn : n < l.length := by
        by_contra hge
        rw [List.getElem?_eq_none (by omega)] at h'
        cases h'
      rw [List.getElem?_set, if_pos rfl, if_pos hn]
      rfl

theorem mem_modifyAt {α : Type} (l : List α) (n : Nat) (f : α → α) (x : α)
    (hx : x ∈ modifyAt l n f) : x ∈ l ∨ ∃ a ∈ l, x = f a := by
  rw [modifyAt] at hx
  cases h : l[n]? with
  | none =>
      rw [h] at hx
      exact Or.inl hx
  | some a =>
      rw [h] at hx
      rcases List.mem_or_eq_of_mem_set hx with hm | rfl
      · exact Or.inl hm
      · have hn : n < l.length := by
          by_contra hge
          rw [List.getElem?_eq_none (by omega)] at h
          cases h
        have hv : l[n] = a := by
          have := List.getElem?_eq_getElem hn
          rw [h] at this
          exact (Option.some.inj this).symm
        exact Or.inr ⟨a, hv ▸ List.getElem_mem hn, rfl⟩

theorem core_setNb (k : Nat) (nb : List (PointId × ℤ)) (p : PointRec) :
    core (setNb k nb p) = core p := rfl

theorem nbhdOf_setNb (q : PointRec) (k : Nat) (nb : List (PointId × ℤ))
    (l : Nat) :
    nbhdOf (setNb k nb q) l =
      if k = l ∧ k < q.neighbours.length then nb else nbhdOf q l := by
  rw [nbhdOf, nbhdOf, setNb]
  simp only [List.getD_eq_getElem?_getD]
  rw [List.getElem?_set]
  by_cases hkl : k = l
  · subst hkl
    rw [if_pos rfl]
    by_cases hk : k < q.neighbours.length
    · rw [if_pos hk, if_pos ⟨rfl, hk⟩]
      rfl
    · rw [if_neg hk, if_neg (fun h => hk h.2),
        List.getElem?_eq_none (by omega)]
  · rw [if_neg hkl, if_neg (fun h => hkl h.1)]

theorem setNbhd_fields (g : Graph) (pid : PointId) (k : Nat)
    (nb : List (PointId × ℤ)) :
    (setNbhd g pid k nb).max_nb_connection = g.max_nb_connection ∧
      (setNbhd g pid k nb).ef_construction = g.ef_construction ∧
      (setNbhd g pid k nb).extend_candidates = g.extend_candidates ∧
      (setNbhd g pid k nb).keep_pruned = g.keep_pruned ∧
      (setNbhd g pid k nb).max_layer = g.max_layer ∧
      (setNbhd g pid k nb).nb_point = g.nb_point ∧
      (setNbhd g pid k nb).entry_point = g.entry_point := by
  rw [setNbhd]
  split <;> exact ⟨rfl, rfl, rfl, rfl, rfl, rfl, rfl⟩

theorem layerAt_setNbhd_length (g : Graph) (pid : PointId) (k : Nat)
    (nb : List (PointId × ℤ)) (i : Nat) :
    (layerAt (setNbhd g pid k nb) i).length = (layerAt g i).length := by
  rw [setNbhd]
  split
  · rfl
  · rw [layerAt, layerAt]
    simp only [List.getD_eq_getElem?_getD]
    by_cases hi : i = pid.layer
    · subst hi
      rw [getElem?_modifyAt_self]
      cases h : g.points_by_layer[pid.layer]? with
      | none => rfl
      | some lay =>
          dsimp only [Option.map, Option.getD]
          exact modifyAt_length _ _ _
    · rw [getElem?_modifyAt_ne _ _ _ _ hi]

theorem points_length_setNbhd (g : Graph) (pid : PointId) (k : Nat)
    (nb : List (PointId × ℤ)) :
    (setNbhd g pid k nb).points_by_layer.length =
      g.points_by_layer.length := by
  rw [setNbhd]
  split
  · rfl
  · exact modifyAt_length _ _ _

theorem storedAt_setNbhd_core (g : Graph) (pid : PointId) (k : Nat)
    (nb : List (PointId × ℤ)) (i j : Nat) :
    (storedAt (setNbhd g pid k nb) i j).map core =
      (storedAt g i j).map core := by
  rw [setNbhd]
  split
  · rfl
  · rw [storedAt, storedAt, layerAt, layerAt]
    simp only [List.getD_eq_getElem?_getD]
    by_cases hi : i = pid.layer
    · subst hi
      rw [getElem?_modifyAt_self]
      cases h : g.points_by_layer[pid.layer]? with
      | none => rfl
      | some lay =>
          dsimp only [Option.map, Option.getD]
          by_cases hj : j = pid.slot.toNat
          · subst hj
            rw [getElem?_modifyAt_self]
            cases h2 : lay[pid.slot.toNat]? with
            | none => rfl
            | some p => rfl
          · rw [getElem?_modifyAt_ne _ _ _ _ hj]
    · rw [getElem?_modifyAt_ne _ _ _ _ hi]

theorem mem_allPoints_setNbhd (g : Graph) (pid : PointId) (k : Nat)
    (nb : List (PointId × ℤ)) (p : PointRec)
    (hp : p ∈ allPoints (setNbhd g pid k nb)) :
    p ∈ allPoints g ∨ ∃ q ∈ allPoints g, p = setNb k nb q := by
  rw [setNbhd] at hp
  split at hp
  · exact Or.inl hp
  · rw [allPoints] at hp
    obtain ⟨lay', hlay', hplay'⟩ := List.mem_flatten.mp hp
    rcases mem_modifyAt _ _ _ _ hlay' with hl | ⟨lay, hlay, rfl⟩
    · exact Or.inl (List.mem_flatten.mpr ⟨lay', hl, hplay'⟩)
    · rcases mem_modifyAt _ _ _ _ hplay' with hm | ⟨q, hq, rfl⟩
      · exact Or.inl (List.mem_flatten.mpr ⟨lay, hlay, hm⟩)
      · exact Or.inr ⟨q, List.mem_flatten.mpr ⟨lay, hlay, hq⟩, rfl⟩

/-! ## SkelEq and StepOK -/

theorem skelEq_refl (g : Graph) : SkelEq g g :=
  ⟨rfl, rfl, rfl, rfl, rfl, rfl, rfl, rfl, fun _ => rfl, fun _ _ => rfl⟩

theorem skelEq_trans {g1 g2 g3 : Graph} (h12 : SkelEq g1 g2)
    (h23 : SkelEq g2 g3) : SkelEq g1 g3 := by
  obtain ⟨a1, b1, c1, d1, e1, f1, i1, j1, k1, m1⟩ := h12
  obtain ⟨a2, b2, c2, d2, e2, f2, i2, j2, k2, m2⟩ := h23
  refine ⟨a2.trans a1, b2.trans b1, c2.trans c1, d2.trans d1, e2.trans e1,
    f2.trans f1, i2.trans i1, j2.trans j1, fun i => (k2 i).trans (k1 i),
    fun i j => (m2 i j).trans (m1 i j)⟩

theorem skelEq_setNbhd (g : Graph) (pid : PointId) (k : Nat)
    (nb : List (PointId × ℤ)) : SkelEq g (setNbhd g pid k nb) := by
  obtain ⟨h1, h2, h3, h4, h5, h6, h7⟩ := setNbhd_fields g pid k nb
  exact ⟨h1, h2, h3, h4, h5, h6, h7, points_length_setNbhd g pid k nb,
    layerAt_setNbhd_length g pid k nb, storedAt_setNbhd_core g pid k nb⟩

theorem bounds_setNbhd (g : Graph) (pid : PointId) (k : Nat)
    (nb : List (PointId × ℤ))
    (h0 : k = 0 → nb.length ≤ 2 * g.max_nb_connection)
    (h1 : 0 < k → nb.length ≤ g.max_nb_connection)
    (hB : Bounds g) : Bounds (setNbhd g pid k nb) := by
  intro p hp
  rw [BoundsOK, (setNbhd_fields g pid k nb).1]
  rcases mem_allPoints_setNbhd g pid k nb p hp with hm | ⟨q, hq, rfl⟩
  · exact hB p hm
  · obtain ⟨hq0, hql⟩ := hB q hq
    constructor
    · rw [nbhdOf_setNb]
      by_cases hc : k = 0 ∧ k < q.neighbours.length
      · rw [if_pos hc]
        exact h0 hc.1
      · rw [if_neg hc]
        exact hq0
    · intro l hl
      rw [nbhdOf_setNb]
      by_cases hc : k = l ∧ k < q.neighbours.length
      · rw [if_pos hc]
        exact h1 (hc.1 ▸ hl)
      · rw [if_neg hc]
        exact hql l hl

theorem emptyAbove_setNbhd (g : Graph) (pid : PointId) (k : Nat)
    (nb : List (PointId × ℤ)) (B : Nat) (hk : k ≤ B)
    (hE : EmptyAbove B g) : EmptyAbove B (setNbhd g pid k nb) := by
  intro p hp l hl
  rcases mem_allPoints_setNbhd g pid k nb p hp with hm | ⟨q, hq, rfl⟩
  · exact hE p hm l hl
  · rw [nbhdOf_setNb]
    rw [if_neg (fun hc => by omega)]
    exact hE q hq l hl

theorem stepOK_refl (B : Nat) (g : Graph) : StepOK B g g :=
  ⟨skelEq_refl g, id, id⟩

theorem stepOK_trans {B : Nat} {g1 g2 g3 : Graph} (h12 : StepOK B g1 g2)
    (h23 : StepOK B g2 g3) : StepOK B g1 g3 :=
  ⟨skelEq_trans h12.1 h23.1, fun hb => h23.2.1 (h12.2.1 hb),
    fun he => h23.2.2 (h12.2.2 he)⟩

theorem stepOK_setNbhd (g : Graph) (pid : PointId) (k : Nat)
    (nb : List (PointId × ℤ)) (B : Nat)
    (h0 : k = 0 → nb.length ≤ 2 * g.max_nb_connection)
    (h1 : 0 < k → nb.length ≤ g.max_nb_connection)
    (hk : k ≤ B) : StepOK B g (setNbhd g pid k nb) :=
  ⟨skelEq_setNbhd g pid k nb,
    bounds_setNbhd g pid k nb h0 h1,
    emptyAbove_setNbhd g pid k nb B hk⟩

/-! ## selectNeighbours length bound -/

theorem popAll_length_le : ∀ (fuel : Nat) (cands : List PWO),
    (popAll fuel cands).length ≤ fuel := by
  intro fuel
  induction fuel with
  | zero => intro cands; simp [popAll]
  | succ fuel ih =>
      intro cands
      rw [popAll]
      cases hp : heapPopMax cands with
      | none => simp
      | some pr =>
          obtain ⟨p, rest⟩ := pr
          dsimp only
          simp only [List.length_cons]
          exact Nat.succ_le_succ (ih rest)

theorem mainSelect_length_le (dist : Dist) (nbAsked : Nat) (keepPruned : Bool) :
    ∀ (fuel : Nat) (cands result disc : List PWO),
      result.length ≤ nbAsked →
      (mainSelect dist nbAsked keepPruned fuel cands result disc).1.length ≤
        nbAsked := by
  intro fuel
  induction fuel with
  | zero => intro cands result disc h; exact h
  | succ fuel ih =>
      intro cands result disc h
      rw [mainSelect]
      by_cases hge : nbAsked ≤ result.length
      · rw [if_pos hge]
        exact h
      · rw [if_neg hge]
        cases hp : heapPopMax cands with
        | none => exact h
        | some pr =>
            obtain ⟨e, rest⟩ := pr
            dsimp only
            by_cases hok : (result.isEmpty ||
                !(result.any (fun d => decide (dist e.1.v d.1.v ≤ -e.2)))) = true
            · rw [if_pos hok]
              refine ih rest _ disc ?_
              simp only [List.length_append, List.length_cons, List.length_nil]
              omega
            · rw [if_neg hok]
              exact ih rest result _ h

theorem refill_length_le (nbAsked : Nat) :
    ∀ (fuel : Nat) (disc result : List PWO),
      result.length ≤ nbAsked →
      (refill nbAsked fuel disc result).length ≤ nbAsked := by
  intro fuel
  induction fuel with
  | zero => intro disc result h; exact h
  | succ fuel ih =>
      intro disc result h
      rw [refill]
      by_cases hge : nbAsked ≤ result.length
      · rw [if_pos hge]
        exact h
      · rw [if_neg hge]
        cases hp : heapPopMax disc with
        | none => exact h
        | some pr =>
            obtain ⟨b, rest⟩ := pr
            dsimp only
            refine ih rest _ ?_
            simp only [List.length_append, List.length_cons, List.length_nil]
            omega

theorem selectNeighbours_length_le (dist : Dist) (g : Graph) (data : List ℤ)
    (cands : List PWO) (nbAsked : Nat) (ext : Bool) (layer : Nat)
    (keepPruned : Bool) :
    (selectNeighbours dist g data cands nbAsked ext layer keepPruned).length ≤
      nbAsked := by
  rw [selectNeighbours]
  by_cases hc : cands.length ≤ nbAsked ∧ ext = false
  · rw [if_pos hc]
    exact le_trans (popAll_length_le cands.length cands) hc.1
  · rw [if_neg hc]
    dsimp only
    by_cases hkp : keepPruned = true
    · rw [if_pos hkp]
      exact refill_length_le nbAsked _ _ _
        (mainSelect_length_le dist nbAsked keepPruned _ _ [] [] (by simp))
    · rw [if_neg hkp]
      exact mainSelect_length_le dist nbAsked keepPruned _ _ [] [] (by simp)

/-! ## Point-store lemmas -/

theorem rawGet_mem (g : Graph) (pid : PointId) (q : PointRec)
    (h : rawGet g pid = some q) : q ∈ allPoints g := by
  rw [rawGet] at h
  split at h
  · cases h
  · rw [storedAt] at h
    have hq : q ∈ layerAt g pid.layer := by
      have := List.getElem?_eq_some.mp h
      obtain ⟨hn, hv⟩ := this
      exact hv ▸ List.getElem_mem hn
    rw [layerAt] at hq
    rw [allPoints]
    by_cases hl : pid.layer < g.points_by_layer.length
    · refine List.mem_flatten.mpr ⟨g.points_by_layer[pid.layer], ?_, ?_⟩
      · exact List.getElem_mem hl
      · rwa [List.getD_eq_getElem?_getD, List.getElem?_eq_getElem hl] at hq
    · rw [List.getD_eq_getElem?_getD, List.getElem?_eq_none (by omega)] at hq
      cases hq

theorem generateNewPoint_fields (g : Graph) (data : List ℤ)
    (origin_id level : Nat) :
    (generateNewPoint g data origin_id level).1.max_nb_connection =
        g.max_nb_connection ∧
      (generateNewPoint g data origin_id level).1.ef_construction =
        g.ef_construction ∧
      (generateNewPoint g data origin_id level).1.extend_candidates =
        g.extend_candidates ∧
      (generateNewPoint g data origin_id level).1.keep_pruned =
        g.keep_pruned ∧
      (generateNewPoint g data origin_id level).1.max_layer = g.max_layer ∧
      (generateNewPoint g data origin_id level).1.nb_point = g.nb_point + 1 ∧
      (generateNewPoint g data origin_id level).1.entry_point =
        g.entry_point ∧
      (generateNewPoint g data origin_id level).1.points_by_layer.length =
        g.points_by_layer.length :=
  ⟨rfl, rfl, rfl, rfl, rfl, rfl, rfl, modifyAt_length _ _ _⟩

/-- The record created by `generate_new_point`. -/
theorem layerAt_generateNewPoint_self (g : Graph) (data : List ℤ)
    (origin_id level : Nat) (hlev : level < g.points_by_layer.length) :
    layerAt (generateNewPoint g data origin_id level).1 level =
      layerAt g level ++
        [{ v := data, origin_id := origin_id,
           p_id := ⟨level, ((layerAt g level).length : Int)⟩,
           neighbours := List.replicate NB_LAYER_MAX [] }] := by
  rw [generateNewPoint]
  dsimp only
  simp only [layerAt, List.getD_eq_getElem?_getD]
  rw [getElem?_modifyAt_self, List.getElem?_eq_getElem hlev]
  rfl

theorem layerAt_generateNewPoint_ne (g : Graph) (data : List ℤ)
    (origin_id level : Nat) (i : Nat) (hi : i ≠ level) :
    layerAt (generateNewPoint g data origin_id level).1 i = layerAt g i := by
  rw [generateNewPoint]
  dsimp only
  simp only [layerAt, List.getD_eq_getElem?_getD]
  rw [getElem?_modifyAt_ne _ _ _ _ hi]

theorem generateNewPoint_newRec (g : Graph) (data : List ℤ)
    (origin_id level : Nat) (hlev : level < g.points_by_layer.length) :
    rawGet (generateNewPoint g data origin_id level).1
        (generateNewPoint g data origin_id level).2.1 =
      some { v := data, origin_id := origin_id,
             p_id := ⟨level, ((layerAt g level).length : Int)⟩,
             neighbours := List.replicate NB_LAYER_MAX [] } := by
  rw [rawGet]
  have hpid : (generateNewPoint g data origin_id level).2.1 =
      ⟨level, ((layerAt g level).length : Int)⟩ := rfl
  rw [hpid]
  rw [if_neg (by simp)]
  rw [storedAt]
  dsimp only
  rw [Int.toNat_ofNat]
  rw [layerAt_generateNewPoint_self g data origin_id level hlev]
  exact List.getElem?_concat_length _ _

theorem checkEntryPoint_fields (g : Graph) (newPid : PointId) :
    (checkEntryPoint g newPid).points_by_layer = g.points_by_layer ∧
      (checkEntryPoint g newPid).max_nb_connection = g.max_nb_connection ∧
      (checkEntryPoint g newPid).nb_point = g.nb_point := by
  rw [checkEntryPoint]
  cases g.entry_point with
  | none => exact ⟨rfl, rfl, rfl⟩
  | some e =>
      dsimp only
      split
      · exact ⟨rfl, rfl, rfl⟩
      · exact ⟨rfl, rfl, rfl⟩

theorem checkEntryPoint_entry (g : Graph) (newPid : PointId) :
    (checkEntryPoint g newPid).entry_point =
      match g.entry_point with
      | none => some newPid
      | some e => if e.layer < newPid.layer then some newPid else some e := by
  rw [checkEntryPoint]
  cases he : g.entry_point with
  | none => rfl
  | some e =>
      dsimp only
      split
      · rfl
      · exact he

/-! ## StepOK for the insertion phases -/

theorem descentLoop_stepOK (dist : Dist) (data : List ℤ) (newPid : PointId)
    (fuel B : Nat) :
    ∀ (ls : List Nat) (g : Graph) (enter : PointRec) (dte : ℤ),
      (∀ l ∈ ls, 0 < l ∧ l ≤ B) →
      StepOK B g (descentLoop dist data newPid fuel ls (g, enter, dte)).1 := by
  intro ls
  induction ls with
  | nil => intro g enter dte _; exact stepOK_refl B g
  | cons l ls ih =>
      intro g enter dte hls
      have hl := hls l (List.mem_cons_self _ _)
      have hls' : ∀ x ∈ ls, 0 < x ∧ x ≤ B :=
        fun x hx => hls x (List.mem_cons_of_mem _ hx)
      rw [descentLoop]
      cases hp : heapPopMax (searchLayer dist g data enter 1 l none fuel) with
      | none =>
          dsimp only
          exact ih g enter dte hls'
      | some pr =>
          obtain ⟨ep, rest⟩ := pr
          dsimp only
          have hstep : StepOK B g
              (if (nbhdAtG g newPid l).length < g.max_nb_connection % 256 then
                setNbhd g newPid l
                  (nbhdAtG g newPid l ++ [(ep.1.p_id, ep.2)])
              else g) := by
            by_cases hc :
                (nbhdAtG g newPid l).length < g.max_nb_connection % 256
            · rw [if_pos hc]
              refine stepOK_setNbhd g newPid l _ B ?_ ?_ hl.2
              · intro h0
                omega
              · intro _
                have := Nat.mod_le g.max_nb_connection 256
                simp only [List.length_append, List.length_cons,
                  List.length_nil]
                omega
            · rw [if_neg hc]
              exact stepOK_refl B g
          by_cases ht : dist data ep.1.v < dte
          · rw [if_pos ht]
            exact stepOK_trans hstep (ih _ ep.1 _ hls')
          · rw [if_neg ht]
            exact stepOK_trans hstep (ih _ enter dte hls')

theorem beamLoop_stepOK (dist : Dist) (data : List ℤ) (newPid : PointId)
    (fuel B : Nat) :
    ∀ (ls : List Nat) (g : Graph) (enter : PointRec),
      (∀ l ∈ ls, l ≤ B) →
      StepOK B g (beamLoop dist data newPid fuel ls (g, enter)).1 := by
  intro ls
  induction ls with
  | nil => intro g enter _; exact stepOK_refl B g
  | cons l ls ih =>
      intro g enter hls
      have hl := hls l (List.mem_cons_self _ _)
      have hls' : ∀ x ∈ ls, x ≤ B :=
        fun x hx => hls x (List.mem_cons_of_mem _ hx)
      rw [beamLoop]
      dsimp only
      by_cases hempty : ((searchLayer dist g data enter g.ef_construction l
          none fuel).map (fun x => (x.1, -x.2))).isEmpty = true
      · rw [if_pos hempty]
        exact ih g enter hls'
      · rw [if_neg hempty]
        have hlen : ∀ (nbrs : List PWO),
            nbrs = sortByDist (selectNeighbours dist g data
              ((searchLayer dist g data enter g.ef_construction l none
                fuel).map (fun x => (x.1, -x.2)))
              (if l = 0 then 2 * g.max_nb_connection else g.max_nb_connection)
              (if l = 0 then g.extend_candidates else false) l
              g.keep_pruned) →
            StepOK B g (setNbhd g newPid l
              (nbrs.map (fun x => (x.1.p_id, x.2)))) := by
          intro nbrs hnbrs
          have hsel : nbrs.length ≤
              (if l = 0 then 2 * g.max_nb_connection
                else g.max_nb_connection) := by
            rw [hnbrs, (sortByDist_perm _).length_eq]
            exact selectNeighbours_length_le _ _ _ _ _ _ _ _
          refine stepOK_setNbhd g newPid l _ B ?_ ?_ hl
          · intro h0
            rw [List.length_map]
            rw [h0] at hsel
            simpa using hsel
          · intro hpos
            rw [List.length_map]
            rw [if_neg (by omega)] at hsel
            exact hsel
        cases hnb : sortByDist (selectNeighbours dist g data
            ((searchLayer dist g data enter g.ef_construction l none
              fuel).map (fun x => (x.1, -x.2)))
            (if l = 0 then 2 * g.max_nb_connection else g.max_nb_connection)
            (if l = 0 then g.extend_candidates else false) l
            g.keep_pruned) with
        | nil =>
            dsimp only
            exact stepOK_trans (hnb ▸ hlen [] hnb.symm) (ih _ enter hls')
        | cons h tl =>
            dsimp only
            exact stepOK_trans (hnb ▸ hlen (h :: tl) hnb.symm)
              (ih _ h.1 hls')

theorem reverseEdges_stepOK (newPid : PointId) (level B M : Nat)
    (hlB : level ≤ B) :
    ∀ (edges : List (PointId × ℤ)) (g : Graph),
      M = g.max_nb_connection →
      StepOK B g (reverseEdges newPid level M edges g) := by
  intro edges
  induction edges with
  | nil => intro g _; exact stepOK_refl B g
  | cons e edges ih =>
      obtain ⟨qpid, qd⟩ := e
      intro g hM
      rw [reverseEdges]
      by_cases hq : qpid = newPid
      · rw [if_pos hq]
        exact ih g hM
      · rw [if_neg hq]
        by_cases hal : (nbhdAtG g qpid level).any
            (fun x => decide (x.1 = newPid)) = true
        · rw [if_pos hal]
          exact ih g hM
        · rw [if_neg hal]
          have hstep : StepOK B g (setNbhd g qpid level
              (if (if 0 < level then M else 2 * M) <
                  (nbhdAtG g qpid level ++ [(newPid, qd)]).length then
                (sortByDist (nbhdAtG g qpid level ++ [(newPid, qd)])).dropLast
              else sortByDist (nbhdAtG g qpid level ++ [(newPid, qd)]))) := by
            refine ⟨skelEq_setNbhd _ _ _ _, ?_,
              emptyAbove_setNbhd _ _ _ _ B hlB⟩
            intro hb
            have hcur : (nbhdAtG g qpid level).length ≤
                (if 0 < level then M else 2 * M) := by
              rw [nbhdAtG]
              cases hr : rawGet g qpid with
              | none => simp
              | some q =>
                  have hbk := hb q (rawGet_mem g qpid q hr)
                  dsimp only
                  by_cases h0 : 0 < level
                  · rw [if_pos h0, hM]
                    exact hbk.2 level h0
                  · rw [if_neg h0, hM]
                    have : level = 0 := by omega
                    rw [this]
                    exact hbk.1
            have hfin : (if (if 0 < level then M else 2 * M) <
                (nbhdAtG g qpid level ++ [(newPid, qd)]).length then
                  (sortByDist (nbhdAtG g qpid level ++
                    [(newPid, qd)])).dropLast
                else sortByDist (nbhdAtG g qpid level ++
                  [(newPid, qd)])).length ≤ (if 0 < level then M else 2 * M)
                := by
              have hperm := (sortByDist_perm
                (nbhdAtG g qpid level ++ [(newPid, qd)])).length_eq
              have happ : (nbhdAtG g qpid level ++ [(newPid, qd)]).length =
                  (nbhdAtG g qpid level).length + 1 := by
                simp
              by_cases hs : (if 0 < level then M else 2 * M) <
                  (nbhdAtG g qpid level ++ [(newPid, qd)]).length
              · rw [if_pos hs, List.length_dropLast]
                omega
              · rw [if_neg hs]
                omega
            refine bounds_setNbhd g qpid level _ ?_ ?_ hb
            · intro h0
              subst h0
              have hth : (if 0 < 0 then M else 2 * M) = 2 * M :=
                if_neg (by omega)
              rw [hth] at hfin ⊢
              omega
            · intro hpos
              have hth : (if 0 < level then M else 2 * M) = M := if_pos hpos
              rw [hth] at hfin ⊢
              omega
          refine stepOK_trans hstep (ih _ ?_)
          exact hM.trans (setNbhd_fields _ _ _ _).1.symm

theorem reverseUpdate_stepOK (newPid : PointId) (level B M : Nat)
    (hlB : level ≤ B) :
    ∀ (ls : List Nat) (g : Graph), M = g.max_nb_connection →
      StepOK B g (reverseUpdate newPid level M ls g) := by
  intro ls
  induction ls with
  | nil => intro g _; exact stepOK_refl B g
  | cons l ls ih =>
      intro g hM
      rw [reverseUpdate]
      have hstep := reverseEdges_stepOK newPid level B M hlB
        (nbhdAtG g newPid l) g hM
      refine stepOK_trans hstep (ih _ ?_)
      exact hM.trans hstep.1.1.symm

/-! ## Transport lemmas for the insertion proof -/

theorem layerAt_eq_getElem (g : Graph) (i : Nat)
    (hi : i < g.points_by_layer.length) :
    layerAt g i = g.points_by_layer[i] := by
  rw [layerAt, List.getD_eq_getElem?_getD, List.getElem?_eq_getElem hi]
  rfl

theorem storedAt_mem (g : Graph) (i j : Nat) (p : PointRec)
    (h : storedAt g i j = some p) : p ∈ allPoints g := by
  rw [storedAt] at h
  have hp : p ∈ layerAt g i := by
    obtain ⟨hn, hv⟩ := List.getElem?_eq_some.mp h
    exact hv ▸ List.getElem_mem hn
  by_cases hl : i < g.points_by_layer.length
  · rw [allPoints]
    refine List.mem_flatten.mpr ⟨g.points_by_layer[i], List.getElem_mem hl, ?_⟩
    rwa [layerAt_eq_getElem g i hl] at hp
  · rw [layerAt, List.getD_eq_getElem?_getD,
      List.getElem?_eq_none (by omega)] at hp
    cases hp

theorem mem_allPoints_coords (g : Graph) (p : PointRec)
    (hp : p ∈ allPoints g) : ∃ i j, storedAt g i j = some p := by
  rw [allPoints] at hp
  obtain ⟨lay, hlay, hplay⟩ := List.mem_flatten.mp hp
  obtain ⟨i, hi, rfl⟩ := List.getElem_of_mem hlay
  obtain ⟨j, hj, rfl⟩ := List.getElem_of_mem hplay
  refine ⟨i, j, ?_⟩
  rw [storedAt, layerAt_eq_getElem g i hi]
  exact List.getElem?_eq_getElem hj

theorem SkelEq.maxNb {g g' : Graph} (h : SkelEq g g') :
    g'.max_nb_connection = g.max_nb_connection := h.1

theorem SkelEq.maxLayerEq {g g' : Graph} (h : SkelEq g g') :
    g'.max_layer = g.max_layer := h.2.2.2.2.1

theorem SkelEq.nbPoint {g g' : Graph} (h : SkelEq g g') :
    g'.nb_point = g.nb_point := h.2.2.2.2.2.1

theorem SkelEq.entryEq {g g' : Graph} (h : SkelEq g g') :
    g'.entry_point = g.entry_point := h.2.2.2.2.2.2.1

theorem SkelEq.pblLength {g g' : Graph} (h : SkelEq g g') :
    g'.points_by_layer.length = g.points_by_layer.length := h.2.2.2.2.2.2.2.1

theorem SkelEq.layerLen {g g' : Graph} (h : SkelEq g g') :
    ∀ i, (layerAt g' i).length = (layerAt g i).length := h.2.2.2.2.2.2.2.2.1

theorem SkelEq.cores {g g' : Graph} (h : SkelEq g g') :
    ∀ i j, (storedAt g' i j).map core = (storedAt g i j).map core :=
  h.2.2.2.2.2.2.2.2.2

theorem skelEq_allPoints_length {g g' : Graph} (h : SkelEq g g') :
    (allPoints g').length = (allPoints g).length := by
  rw [allPoints, allPoints, List.length_flatten, List.length_flatten]
  congr 1
  apply List.ext_getElem
  · rw [List.length_map, List.length_map]
    exact h.pblLength
  · intro i h1 h2
    simp only [List.getElem_map]
    rw [← layerAt_eq_getElem g' i (by simpa using h1),
      ← layerAt_eq_getElem g i (by simpa using h2)]
    exact h.layerLen i

theorem skelEq_mem_allPoints {g g' : Graph} (h : SkelEq g g') (p : PointRec)
    (hp : p ∈ allPoints g') : ∃ q ∈ allPoints g, core p = core q := by
  obtain ⟨i, j, hij⟩ := mem_allPoints_coords g' p hp
  have hcore := h.cores i j
  rw [hij] at hcore
  cases hq : storedAt g i j with
  | none => rw [hq] at hcore; cases hcore
  | some q =>
      rw [hq] at hcore
      exact ⟨q, storedAt_mem g i j q hq, Option.some.inj hcore⟩

theorem skelEq_rawGet_core {g g' : Graph} (h : SkelEq g g') (pid : PointId) :
    (rawGet g' pid).map core = (rawGet g pid).map core := by
  rw [rawGet, rawGet]
  split
  · rfl
  · exact h.cores pid.layer pid.slot.toNat

theorem option_map_core_ex {o o' : Option PointRec} {p : PointRec}
    (hmap : o'.map core = o.map core) (ho : o = some p) :
    ∃ p', o' = some p' ∧ core p' = core p := by
  subst ho
  cases o' with
  | none => cases hmap
  | some p' => exact ⟨p', rfl, Option.some.inj hmap⟩

theorem checkEntryPoint_more_fields (g : Graph) (newPid : PointId) :
    (checkEntryPoint g newPid).max_layer = g.max_layer ∧
      (checkEntryPoint g newPid).ef_construction = g.ef_construction := by
  rw [checkEntryPoint]
  cases g.entry_point with
  | none => exact ⟨rfl, rfl⟩
  | some e =>
      dsimp only
      split
      · exact ⟨rfl, rfl⟩
      · exact ⟨rfl, rfl⟩

theorem allPoints_checkEntryPoint (g : Graph) (newPid : PointId) :
    allPoints (checkEntryPoint g newPid) = allPoints g := by
  rw [allPoints, allPoints, (checkEntryPoint_fields g newPid).1]

theorem rawGet_checkEntryPoint (g : Graph) (newPid : PointId)
    (pid : PointId) :
    rawGet (checkEntryPoint g newPid) pid = rawGet g pid := by
  rw [rawGet, rawGet, storedAt, storedAt, layerAt, layerAt,
    (checkEntryPoint_fields g newPid).1]

theorem storedAt_checkEntryPoint (g : Graph) (newPid : PointId) (i j : Nat) :
    storedAt (checkEntryPoint g newPid) i j = storedAt g i j := by
  rw [storedAt, storedAt, layerAt, layerAt, (checkEntryPoint_fields g newPid).1]

theorem modifyAt_cons_zero {α : Type} (x : α) (L : List α) (f : α → α) :
    modifyAt (x :: L) 0 f = f x :: L := by
  simp [modifyAt]

theorem modifyAt_cons_succ {α : Type} (x : α) (L : List α) (n : Nat)
    (f : α → α) : modifyAt (x :: L) (n + 1) f = x :: modifyAt L n f := by
  rw [modifyAt, modifyAt]
  cases h : L[n]? with
  | none => simp [h]
  | some a => simp [h, List.set]

theorem sum_map_length_modifyAt {α : Type} :
    ∀ (L : List (List α)) (n : Nat) (a : α), n < L.length →
      ((modifyAt L n (fun l => l ++ [a])).map List.length).sum =
        (L.map List.length).sum + 1 := by
  intro L
  induction L with
  | nil => intro n a h; cases h
  | cons x L ih =>
      intro n a h
      cases n with
      | zero =>
          rw [modifyAt_cons_zero]
          simp only [List.map_cons, List.sum_cons, List.length_append,
            List.length_cons, List.length_nil]
          omega
      | succ n =>
          rw [modifyAt_cons_succ]
          simp only [List.map_cons, List.sum_cons]
          have := ih n a (by simpa using Nat.lt_of_succ_lt_succ h)
          omega

theorem length_allPoints_generateNewPoint (g : Graph) (data : List ℤ)
    (origin_id level : Nat) (hlev : level < g.points_by_layer.length) :
    (allPoints (generateNewPoint g data origin_id level).1).length =
      (allPoints g).length + 1 := by
  rw [allPoints, allPoints, generateNewPoint]
  dsimp only
  rw [List.length_flatten, List.length_flatten]
  exact sum_map_length_modifyAt g.points_by_layer level _ hlev

theorem rawGet_generateNewPoint_of_some (g : Graph) (data : List ℤ)
    (origin_id level : Nat) (pid : PointId) (p : PointRec)
    (hr : rawGet g pid = some p) :
    rawGet (generateNewPoint g data origin_id level).1 pid = some p := by
  rw [rawGet] at hr ⊢
  split at hr
  · cases hr
  · rw [if_neg (by assumption)]
    rw [storedAt] at hr ⊢
    by_cases hi : pid.layer = level
    · rw [hi] at hr ⊢
      by_cases hlev : level < g.points_by_layer.length
      · rw [layerAt_generateNewPoint_self g data origin_id level hlev]
        obtain ⟨hn, hv⟩ := List.getElem?_eq_some.mp hr
        rw [List.getElem?_append_left hn]
        exact hr
      · exfalso
        rw [layerAt, List.getD_eq_getElem?_getD,
          show g.points_by_layer[level]? = none from
            List.getElem?_eq_none (by omega)] at hr
        simp at hr
    · rw [layerAt_generateNewPoint_ne g data origin_id level pid.layer hi]
      exact hr

theorem mem_allPoints_generateNewPoint (g : Graph) (data : List ℤ)
    (origin_id level : Nat) (hlev : level < g.points_by_layer.length)
    (p : PointRec) :
    p ∈ allPoints (generateNewPoint g data origin_id level).1 ↔
      p ∈ allPoints g ∨
        p = { v := data, origin_id := origin_id,
              p_id := ⟨level, ((layerAt g level).length : Int)⟩,
              neighbours := List.replicate NB_LAYER_MAX [] } := by
  constructor
  · intro hp
    rw [allPoints, generateNewPoint] at hp
    dsimp only at hp
    obtain ⟨lay', hlay', hplay'⟩ := List.mem_flatten.mp hp
    rcases mem_modifyAt _ _ _ _ hlay' with hl | ⟨lay, hlay, rfl⟩
    · exact Or.inl (List.mem_flatten.mpr ⟨lay', hl, hplay'⟩)
    · rcases List.mem_append.mp hplay' with hm | hm
      · exact Or.inl (List.mem_flatten.mpr ⟨lay, hlay, hm⟩)
      · rcases List.mem_singleton.mp hm with rfl
        exact Or.inr rfl
  · intro hp
    rcases hp with hold | rfl
    · obtain ⟨i, j, hij⟩ := mem_allPoints_coords g p hold
      refine storedAt_mem _ i j p ?_
      rw [storedAt]
      by_cases hi : i = level
      · subst hi
        rw [layerAt_generateNewPoint_self g data origin_id i hlev]
        rw [storedAt] at hij
        obtain ⟨hn, hv⟩ := List.getElem?_eq_some.mp hij
        rw [List.getElem?_append_left hn]
        exact hij
      · rw [layerAt_generateNewPoint_ne g data origin_id level i hi]
        exact hij
    · refine storedAt_mem _ level (layerAt g level).length _ ?_
      rw [storedAt, layerAt_generateNewPoint_self g data origin_id level hlev]
      exact List.getElem?_concat_length _ _

theorem homeIds_generateNewPoint (g : Graph) (data : List ℤ)
    (origin_id level : Nat) (hh : HomeIds g) :
    HomeIds (generateNewPoint g data origin_id level).1 := by
  intro i j p hij
  by_cases hi : i = level
  · subst hi
    by_cases hlev : i < g.points_by_layer.length
    · rw [storedAt, layerAt_generateNewPoint_self g data origin_id i hlev]
        at hij
      by_cases hj : j < (layerAt g i).length
      · rw [List.getElem?_append_left hj] at hij
        exact hh i j p hij
      · have hjlen : j < (layerAt g i).length + 1 := by
          obtain ⟨hn, _⟩ := List.getElem?_eq_some.mp hij
          simpa using hn
        have hj' : j = (layerAt g i).length := by omega
        subst hj'
        rw [List.getElem?_concat_length] at hij
        cases hij
        rfl
    · exfalso
      rw [storedAt] at hij
      have hpbl : (generateNewPoint g data origin_id i).1.points_by_layer =
          g.points_by_layer := by
        rw [generateNewPoint]
        dsimp only
        rw [modifyAt, List.getElem?_eq_none (by omega)]
      rw [layerAt, hpbl, List.getD_eq_getElem?_getD,
        show g.points_by_layer[i]? = none from
          List.getElem?_eq_none (by omega)] at hij
      simp at hij
  · rw [storedAt, layerAt_generateNewPoint_ne g data origin_id level i hi]
      at hij
    exact hh i j p hij

theorem nbhdOf_newRec (data : List ℤ) (origin_id : Nat) (pid : PointId)
    (l : Nat) :
    nbhdOf { v := data, origin_id := origin_id, p_id := pid,
             neighbours := List.replicate NB_LAYER_MAX [] } l = [] := by
  rw [nbhdOf]
  dsimp only
  rw [List.getD_eq_getElem?_getD]
  cases h : (List.replicate NB_LAYER_MAX ([] : List (PointId × ℤ)))[l]? with
  | none => rfl
  | some a =>
      have := List.getElem?_mem h
      rw [List.eq_of_mem_replicate this]
      rfl

theorem emptyAbove_mono {B1 B2 : Nat} (h : B1 ≤ B2) (g : Graph)
    (hE : EmptyAbove B1 g) : EmptyAbove B2 g := by
  intro p hp l hl
  exact hE p hp l (by omega)

/-! ## StepOK for the whole linking phase -/

theorem insertLinked_stepOK (dist : Dist) (fuel : Nat) (data : List ℤ)
    (newPid : PointId) (level : Nat) (g1 : Graph) (ep : PointRec) :
    StepOK (max ep.p_id.layer level) g1
      (insertLinked dist fuel data newPid level g1 ep) := by
  rw [insertLinked]
  have h1 := descentLoop_stepOK dist data newPid fuel
    (max ep.p_id.layer level)
    ((List.range' (level + 1) (ep.p_id.layer - level)).reverse) g1 ep
    (dist data ep.v) (by
      intro l hl
      rw [List.mem_reverse] at hl
      have := List.mem_range'_1.mp hl
      omega)
  have h2 := beamLoop_stepOK dist data newPid fuel
    (max ep.p_id.layer level) ((List.range (level + 1)).reverse)
    (descentLoop dist data newPid fuel
      ((List.range' (level + 1) (ep.p_id.layer - level)).reverse)
      (g1, ep, dist data ep.v)).1
    (descentLoop dist data newPid fuel
      ((List.range' (level + 1) (ep.p_id.layer - level)).reverse)
      (g1, ep, dist data ep.v)).2.1
    (by
      intro l hl
      rw [List.mem_reverse] at hl
      have := List.mem_range.mp hl
      omega)
  have h3 := reverseUpdate_stepOK newPid level (max ep.p_id.layer level)
    (beamLoop dist data newPid fuel ((List.range (level + 1)).reverse)
      ((descentLoop dist data newPid fuel
        ((List.range' (level + 1) (ep.p_id.layer - level)).reverse)
        (g1, ep, dist data ep.v)).1,
       (descentLoop dist data newPid fuel
        ((List.range' (level + 1) (ep.p_id.layer - level)).reverse)
        (g1, ep, dist data ep.v)).2.1)).1.max_nb_connection
    (le_max_right _ _) ((List.range (level + 1)).reverse) _ rfl
  exact stepOK_trans (stepOK_trans h1 h2) h3

theorem rawGet_home (g : Graph) (pid : PointId) (p : PointRec)
    (hh : HomeIds g) (hr : rawGet g pid = some p) : p.p_id = pid := by
  rw [rawGet] at hr
  split at hr
  · cases hr
  · have := hh pid.layer pid.slot.toNat p hr
    rw [this]
    have hnn : 0 ≤ pid.slot := by omega
    cases pid with
    | mk layer slot =>
        simp only [PointId.mk.injEq]
        exact ⟨trivial, Int.toNat_of_nonneg hnn⟩

theorem bounds_generateNewPoint (g : Graph) (data : List ℤ)
    (origin_id level : Nat) (hlev : level < g.points_by_layer.length)
    (hb : Bounds g) : Bounds (generateNewPoint g data origin_id level).1 := by
  intro p hp
  rcases (mem_allPoints_generateNewPoint g data origin_id level hlev p).mp hp
    with hold | rfl
  · exact hb p hold
  · exact ⟨by rw [nbhdOf_newRec]; simp, fun l _ => by rw [nbhdOf_newRec]; simp⟩

theorem emptyAbove_generateNewPoint (g : Graph) (data : List ℤ)
    (origin_id level B : Nat) (hlev : level < g.points_by_layer.length)
    (hE : EmptyAbove B g) :
    EmptyAbove B (generateNewPoint g data origin_id level).1 := by
  intro p hp l hl
  rcases (mem_allPoints_generateNewPoint g data origin_id level hlev p).mp hp
    with hold | rfl
  · exact hE p hold l hl
  · exact nbhdOf_newRec _ _ _ _

/-! ## Well-formedness is preserved by `insert` -/

theorem core_pid {p q : PointRec} (h : core p = core q) : p.p_id = q.p_id :=
  congrArg Prod.fst h

theorem wf_insert (dist : Dist) (fuel : Nat) (g : Graph) (data : List ℤ)
    (origin_id level : Nat) (hwf : WF g) (hlev : level < g.max_layer) :
    WF (insert dist fuel g data origin_id level) := by
  have hlen := hwf.1
  have hcount := hwf.2.1
  have hhome := hwf.2.2.1
  have hentry := hwf.2.2.2.1
  have hbounds := hwf.2.2.2.2.1
  have hempty := hwf.2.2.2.2.2
  have hlev' : level < g.points_by_layer.length := by omega
  have hG := generateNewPoint_fields g data origin_id level
  have hnew := generateNewPoint_newRec g data origin_id level hlev'
  have hlen1 := length_allPoints_generateNewPoint g data origin_id level hlev'
  have hhome1 := homeIds_generateNewPoint g data origin_id level hhome
  have hbounds1 := bounds_generateNewPoint g data origin_id level hlev' hbounds
  have hnpl : (generateNewPoint g data origin_id level).2.1.layer = level := rfl
  rw [insert]
  rw [show (generateNewPoint g data origin_id level).1.entry_point =
    g.entry_point from rfl]
  cases he : g.entry_point with
  | none =>
      dsimp only
      have hnb0 : g.nb_point = 0 := hentry.1.mp he
      have hall0 : allPoints g = [] := by
        have hl0 : (allPoints g).length = 0 := by omega
        exact List.length_eq_zero.mp hl0
      refine ⟨?_, ?_, ?_, ⟨?_, ?_⟩, ?_, ?_⟩
      · rw [(checkEntryPoint_fields _ _).1, (checkEntryPoint_more_fields _ _).1,
          hG.2.2.2.2.2.2.2, hG.2.2.2.2.1]
        exact hlen
      · rw [(checkEntryPoint_fields _ _).2.2, hG.2.2.2.2.2.1,
          allPoints_checkEntryPoint, hlen1]
        omega
      · intro i j p hst
        rw [storedAt_checkEntryPoint] at hst
        exact hhome1 i j p hst
      · rw [checkEntryPoint_entry,
          show (generateNewPoint g data origin_id level).1.entry_point = none
            from he]
        dsimp only
        refine ⟨fun h => Option.noConfusion h, fun h => ?_⟩
        rw [(checkEntryPoint_fields _ _).2.2, hG.2.2.2.2.2.1] at h
        exact absurd h (by omega)
      · intro e hee
        rw [checkEntryPoint_entry,
          show (generateNewPoint g data origin_id level).1.entry_point = none
            from he] at hee
        dsimp only at hee
        injection hee with hee
        subst hee
        refine ⟨?_, ?_⟩
        · rw [rawGet_checkEntryPoint]
          exact ⟨_, hnew⟩
        · intro p hp
          rw [allPoints_checkEntryPoint] at hp
          rcases (mem_allPoints_generateNewPoint g data origin_id level hlev'
              p).mp hp with hold | rfl
          · rw [hall0] at hold
            cases hold
          · exact le_rfl
      · intro p hp
        rw [allPoints_checkEntryPoint] at hp
        rw [(checkEntryPoint_fields _ _).2.1]
        exact hbounds1 p hp
      · rw [entryLevel, checkEntryPoint_entry,
          show (generateNewPoint g data origin_id level).1.entry_point = none
            from he]
        dsimp only
        rw [hnpl]
        intro p hp l hl
        rw [allPoints_checkEntryPoint] at hp
        rcases (mem_allPoints_generateNewPoint g data origin_id level hlev'
            p).mp hp with hold | rfl
        · rw [hall0] at hold
          cases hold
        · exact nbhdOf_newRec _ _ _ _
  | some epid =>
      dsimp only
      have hnb0 : g.nb_point ≠ 0 := by
        intro h0
        have hn := hentry.1.mpr h0
        rw [hn] at he
        exact Option.noConfusion he
      rw [show (generateNewPoint g data origin_id level).2.2 =
        g.nb_point + 1 from rfl]
      rw [if_neg (show ¬(g.nb_point + 1 = 1) from by omega)]
      obtain ⟨ep, hep⟩ := (hentry.2 epid he).1
      have hep1 := rawGet_generateNewPoint_of_some g data origin_id level
        epid ep hep
      rw [hep1]
      dsimp only
      have heppid : ep.p_id = epid := rawGet_home g epid ep hhome hep
      have heplayer : ep.p_id.layer = epid.layer := by rw [heppid]
      have hstep := insertLinked_stepOK dist fuel data
        (generateNewPoint g data origin_id level).2.1 level
        (generateNewPoint g data origin_id level).1 ep
      have hskel := hstep.1
      have hbpres := hstep.2.1
      have hepres := hstep.2.2
      have he4 : (insertLinked dist fuel data
          (generateNewPoint g data origin_id level).2.1 level
          (generateNewPoint g data origin_id level).1 ep).entry_point =
          some epid := by
        rw [hskel.entryEq]
        exact he
      have hELg : entryLevel g = epid.layer := by rw [entryLevel, he]
      have hempty1 : EmptyAbove (max ep.p_id.layer level)
          (generateNewPoint g data origin_id level).1 :=
        emptyAbove_generateNewPoint g data origin_id level _ hlev'
          (emptyAbove_mono
            (by rw [heplayer, ← hELg]; exact Nat.le_max_left _ _) g hempty)
      have hbounds4 := hbpres hbounds1
      have hempty4 := hepres hempty1
      rw [heplayer] at hempty4
      refine ⟨?_, ?_, ?_, ⟨?_, ?_⟩, ?_, ?_⟩
      · rw [(checkEntryPoint_fields _ _).1, (checkEntryPoint_more_fields _ _).1,
          hskel.pblLength, hskel.maxLayerEq, hG.2.2.2.2.2.2.2, hG.2.2.2.2.1]
        exact hlen
      · rw [(checkEntryPoint_fields _ _).2.2, hskel.nbPoint, hG.2.2.2.2.2.1,
          allPoints_checkEntryPoint, skelEq_allPoints_length hskel, hlen1]
        omega
      · intro i j p hst
        rw [storedAt_checkEntryPoint] at hst
        obtain ⟨q, hq, hcq⟩ := option_map_core_ex (hskel.cores i j).symm hst
        rw [← core_pid hcq]
        exact hhome1 i j q hq
      · rw [checkEntryPoint_entry, he4]
        dsimp only
        rw [hnpl]
        refine ⟨fun h => ?_, fun h => ?_⟩
        · by_cases hcmp : epid.layer < level
          · rw [if_pos hcmp] at h
            exact Option.noConfusion h
          · rw [if_neg hcmp] at h
            exact Option.noConfusion h
        · rw [(checkEntryPoint_fields _ _).2.2, hskel.nbPoint,
            hG.2.2.2.2.2.1] at h
          exact absurd h (by omega)
      · intro e hee
        rw [checkEntryPoint_entry, he4] at hee
        dsimp only at hee
        rw [hnpl] at hee
        by_cases hcmp : epid.layer < level
        · rw [if_pos hcmp] at hee
          injection hee with hee
          subst hee
          refine ⟨?_, ?_⟩
          · rw [rawGet_checkEntryPoint]
            obtain ⟨p4, hp4, hc4⟩ := option_map_core_ex
              (skelEq_rawGet_core hskel _) hnew
            exact ⟨p4, hp4⟩
          · intro p hp
            rw [allPoints_checkEntryPoint] at hp
            obtain ⟨q, hq, hcq⟩ := skelEq_mem_allPoints hskel p hp
            rw [core_pid hcq, hnpl]
            rcases (mem_allPoints_generateNewPoint g data origin_id level
                hlev' q).mp hq with hold | rfl
            · have hle := (hentry.2 epid he).2 q hold
              omega
            · exact le_rfl
        · rw [if_neg hcmp] at hee
          injection hee with hee
          subst hee
          refine ⟨?_, ?_⟩
          · rw [rawGet_checkEntryPoint]
            obtain ⟨p4, hp4, hc4⟩ := option_map_core_ex
              (skelEq_rawGet_core hskel _) hep1
            exact ⟨p4, hp4⟩
          · intro p hp
            rw [allPoints_checkEntryPoint] at hp
            obtain ⟨q, hq, hcq⟩ := skelEq_mem_allPoints hskel p hp
            rw [core_pid hcq]
            rcases (mem_allPoints_generateNewPoint g data origin_id level
                hlev' q).mp hq with hold | rfl
            · exact (hentry.2 epid he).2 q hold
            · exact Nat.le_of_not_lt hcmp
      · intro p hp
        rw [allPoints_checkEntryPoint] at hp
        rw [(checkEntryPoint_fields _ _).2.1]
        exact hbounds4 p hp
      · rw [entryLevel, checkEntryPoint_entry, he4]
        dsimp only
        rw [hnpl]
        by_cases hcmp : epid.layer < level
        · rw [if_pos hcmp]
          dsimp only
          rw [hnpl]
          intro p hp l hl
          rw [allPoints_checkEntryPoint] at hp
          exact hempty4 p hp l (by omega)
        · rw [if_neg hcmp]
          dsimp only
          intro p hp l hl
          rw [allPoints_checkEntryPoint] at hp
          exact hempty4 p hp l (by omega)

theorem insert_max_layer (dist : Dist) (fuel : Nat) (g : Graph)
    (data : List ℤ) (origin_id level : Nat) :
    (insert dist fuel g data origin_id level).max_layer = g.max_layer := by
  rw [insert]
  rw [show (generateNewPoint g data origin_id level).1.entry_point =
    g.entry_point from rfl]
  cases he : g.entry_point with
  | none =>
      dsimp only
      exact (checkEntryPoint_more_fields _ _).1
  | some epid =>
      dsimp only
      by_cases h1 : (generateNewPoint g data origin_id level).2.2 = 1
      · rw [if_pos h1]
        rfl
      · rw [if_neg h1]
        cases hr : rawGet (generateNewPoint g data origin_id level).1 epid with
        | none => rfl
        | some ep =>
            dsimp only
            exact (checkEntryPoint_more_fields _ _).1.trans
              (insertLinked_stepOK dist fuel data _ level _ ep).1.maxLayerEq

theorem wf_mkEmptyGraph (M ml efc : Nat) (ec kp : Bool) :
    WF (mkEmptyGraph M ml efc ec kp) := by
  have hall : allPoints (mkEmptyGraph M ml efc ec kp) = [] := by
    rw [List.eq_nil_iff_forall_not_mem]
    intro p hp
    rw [allPoints] at hp
    obtain ⟨lay, hlay, hplay⟩ := List.mem_flatten.mp hp
    have hln : lay = [] := List.eq_of_mem_replicate hlay
    rw [hln] at hplay
    cases hplay
  refine ⟨?_, ?_, ?_, ⟨?_, ?_⟩, ?_, ?_⟩
  · simp [mkEmptyGraph]
  · rw [hall]
    rfl
  · intro i j p hst
    have hm := storedAt_mem _ i j p hst
    rw [hall] at hm
    cases hm
  · exact ⟨fun _ => rfl, fun _ => rfl⟩
  · intro e hee
    exact Option.noConfusion hee
  · intro p hp
    rw [hall] at hp
    cases hp
  · intro p hp l hl
    rw [hall] at hp
    cases hp

theorem wf_buildAll (dist : Dist) (fuel : Nat) :
    ∀ (reqs : List (List ℤ × Nat × Nat)) (g : Graph), WF g →
      (∀ r ∈ reqs, r.2.2 < g.max_layer) → WF (buildAll dist fuel g reqs) := by
  intro reqs
  induction reqs with
  | nil => intro g hg _; exact hg
  | cons r reqs ih =>
      intro g hg hr
      rw [buildAll, List.foldl_cons]
      have hwf1 := wf_insert dist fuel g r.1 r.2.1 r.2.2 hg
        (hr r (List.mem_cons_self _ _))
      have hcond : ∀ r' ∈ reqs,
          r'.2.2 < (insert dist fuel g r.1 r.2.1 r.2.2).max_layer := by
        intro r' hr'
        rw [insert_max_layer]
        exact hr r' (List.mem_cons_of_mem _ hr')
      exact ih (insert dist fuel g r.1 r.2.1 r.2.2) hwf1 hcond

/-! ## C5: the entry-point invariant -/

/-- C5: after any sequence of insertions into a fresh index (each sampled
level below the layer cap), the entry point is `None` iff the index holds
zero points; otherwise the entry point's level is attained by a stored point
and bounds every stored point's level, i.e. it equals the maximum stored
level. -/
theorem c5_entry_point_invariant (dist : Dist) (fuel : Nat)
    (M ml efc : Nat) (ec kp : Bool) (reqs : List (List ℤ × Nat × Nat))
    (g : Graph) (hreq : ∀ r ∈ reqs, r.2.2 < min NB_LAYER_MAX ml)
    (hg : g = buildAll dist fuel (mkEmptyGraph M ml efc ec kp) reqs) :
    (g.entry_point = none ↔ g.nb_point = 0) ∧
      ∀ e, g.entry_point = some e →
        (∃ p ∈ allPoints g, p.p_id.layer = e.layer) ∧
          ∀ p ∈ allPoints g, p.p_id.layer ≤ e.layer := by
  subst hg
  have hwf := wf_buildAll dist fuel reqs (mkEmptyGraph M ml efc ec kp)
    (wf_mkEmptyGraph M ml efc ec kp) (fun r hr => hreq r hr)
  have hhome := hwf.2.2.1
  have hentry := hwf.2.2.2.1
  refine ⟨hentry.1, ?_⟩
  intro e hee
  obtain ⟨⟨p, hp⟩, hmax⟩ := hentry.2 e hee
  refine ⟨⟨p, rawGet_mem _ _ _ hp, ?_⟩, hmax⟩
  rw [rawGet_home _ e p hhome hp]

theorem c5_entry_point_invariant_witness :
    (∀ r ∈ ([([0], 0, 1), ([1], 1, 0)] : List (List ℤ × Nat × Nat)),
        r.2.2 < min NB_LAYER_MAX 16) ∧
      ((twoGraph.entry_point = none ↔ twoGraph.nb_point = 0) ∧
        ∀ e, twoGraph.entry_point = some e →
          (∃ p ∈ allPoints twoGraph, p.p_id.layer = e.layer) ∧
            ∀ p ∈ allPoints twoGraph, p.p_id.layer ≤ e.layer) :=
  ⟨by decide,
    c5_entry_point_invariant distL1Int 10 2 16 4 false false
      [([0], 0, 1), ([1], 1, 0)] twoGraph (by decide) rfl⟩

/-! ## C6: the degree bounds -/

/-- C6: after any sequence of insertions into a fresh index (each sampled
level below the layer cap), every point's level-0 neighbour list holds at
most `2 * max_nb_connection` entries and every higher-level list at most
`max_nb_connection`; insertion (including reverse linking with shrinking)
preserves the bounds. -/
theorem c6_degree_bounds (dist : Dist) (fuel : Nat)
    (M ml efc : Nat) (ec kp : Bool) (reqs : List (List ℤ × Nat × Nat))
    (g : Graph) (hreq : ∀ r ∈ reqs, r.2.2 < min NB_LAYER_MAX ml)
    (hg : g = buildAll dist fuel (mkEmptyGraph M ml efc ec kp) reqs) :
    ∀ p ∈ allPoints g,
      (nbhdOf p 0).length ≤ 2 * g.max_nb_connection ∧
        ∀ l, 0 < l → (nbhdOf p l).length ≤ g.max_nb_connection := by
  subst hg
  have hwf := wf_buildAll dist fuel reqs (mkEmptyGraph M ml efc ec kp)
    (wf_mkEmptyGraph M ml efc ec kp) (fun r hr => hreq r hr)
  exact fun p hp => hwf.2.2.2.2.1 p hp

theorem c6_degree_bounds_witness :
    (∀ r ∈ ([([0], 0, 1), ([1], 1, 0)] : List (List ℤ × Nat × Nat)),
        r.2.2 < min NB_LAYER_MAX 16) ∧
      ∀ p ∈ allPoints twoGraph,
        (nbhdOf p 0).length ≤ 2 * twoGraph.max_nb_connection ∧
          ∀ l, 0 < l → (nbhdOf p l).length ≤ twoGraph.max_nb_connection :=
  ⟨by decide,
    c6_degree_bounds distL1Int 10 2 16 4 false false
      [([0], 0, 1), ([1], 1, 0)] twoGraph (by decide) rfl⟩

/-! ## C3: which neighbour lists are empty -/

/-- C3 (amended): the claim as stated is false — `insert_slice` pushes the
descent's nearest result into the new point's neighbour list at each layer
above the point's own level — but lists are empty above the entry point's
level: after any sequence of insertions into a fresh index, every stored
point's neighbour list at every level strictly above the entry point's
level is empty. -/
theorem c3_empty_above_entry_level (dist : Dist) (fuel : Nat)
    (M ml efc : Nat) (ec kp : Bool) (reqs : List (List ℤ × Nat × Nat))
    (g : Graph) (hreq : ∀ r ∈ reqs, r.2.2 < min NB_LAYER_MAX ml)
    (hg : g = buildAll dist fuel (mkEmptyGraph M ml efc ec kp) reqs) :
    ∀ p ∈ allPoints g, ∀ l, entryLevel g < l → nbhdOf p l = [] := by
  subst hg
  have hwf := wf_buildAll dist fuel reqs (mkEmptyGraph M ml efc ec kp)
    (wf_mkEmptyGraph M ml efc ec kp) (fun r hr => hreq r hr)
  exact hwf.2.2.2.2.2

theorem c3_empty_above_entry_level_witness :
    (∀ r ∈ ([([0], 0, 1), ([1], 1, 0)] : List (List ℤ × Nat × Nat)),
        r.2.2 < min NB_LAYER_MAX 16) ∧
      ∀ p ∈ allPoints twoGraph, ∀ l, entryLevel twoGraph < l →
        nbhdOf p l = [] :=
  ⟨by decide,
    c3_empty_above_entry_level distL1Int 10 2 16 4 false false
      [([0], 0, 1), ([1], 1, 0)] twoGraph (by decide) rfl⟩

/-- C3 counterexample: in `twoGraph` the point stored at layer 0, slot 0 has
level 0 but a non-empty neighbour list at level 1 (the upper-layer link
pushed during the greedy descent), refuting the claim that lists above a
point's own level are empty. -/
theorem c3_counterexample :
    (rawGet twoGraph ⟨0, 0⟩).map (fun p => p.p_id.layer) = some 0 ∧
      (rawGet twoGraph ⟨0, 0⟩).map (fun p => nbhdOf p 1) =
        some [(⟨1, 0⟩, 1)] := by
  decide

end SemanticSearchRs
